import Mathlib

/-! # ddfilereplace: encoding-aware in-place multi-pattern replacement

A shallow embedding of `src/projects/ddfilereplace/main.cpp` and the
properties of it that the specification states.

* `std::wstring` is a list of 16-bit code units (`Nat`, each below `65536`).
* `ddbuff` (`std::vector<u8>`) is a list of bytes (`Nat`, each below `256`).
* The `ddbase` library the program links against is not part of the sources;
  it is a record of operations (`ddbase`) that `replace_file` is parametric in.
-/

namespace NSP_DD

/-- A `std::wstring`: the sequence of its 16-bit code units. -/
abbrev wstring := List Nat

/-- A `ddbuff`, that is a `std::vector<u8>`: the sequence of its bytes. -/
abbrev ddbuff := List Nat

/-- The conversion `u8(x)` of an integer to an unsigned byte. -/
def u8 (x : Nat) : Nat := x % 256

/-- The conversion `(s32)n` of a `size_t` to a signed 32-bit integer
(two's complement wrap-around): `n % 2 ^ 32` when that is below `2 ^ 31`, and
`n % 2 ^ 32 - 2 ^ 32` otherwise (written `Int.negSucc (2 ^ 32 - 1 - n % 2 ^ 32)`). -/
def s32 (n : Nat) : Int :=
  if n % 2 ^ 32 < 2 ^ 31 then Int.ofNat (n % 2 ^ 32) else Int.negSucc (2 ^ 32 - 1 - n % 2 ^ 32)

/-- The inner loop of the `utf16le` branch of `replace_file`
(`main.cpp` lines 80-85 and 90-95): for each code unit, in order,
`push_back(u8(c)); push_back(u8(c >> 8))`. -/
def utf16le_buff (text : wstring) : ddbuff :=
  text.foldl (fun buff c => buff ++ [u8 c, u8 (c >>> 8)]) []

/-- The inner loop of the `utf16be` branch of `replace_file`
(`main.cpp` lines 102-107 and 112-117): for each code unit, in order,
`push_back(u8(c >> 8)); push_back(u8(c))`. -/
def utf16be_buff (text : wstring) : ddbuff :=
  text.foldl (fun buff c => buff ++ [u8 (c >>> 8), u8 c]) []

/-- The outer loop shared by the four branches of `replace_file`
(`for (size_t i = 0; i < s_finders.size(); ++i)`): pattern `i` of `s_finders`
and pattern `i` of `s_replaces` are transcoded by `enc` and pushed back onto
`finder_buffs` and `replace_buffs`. The access `s_replaces[i]` is not bounds
checked in the source; an out-of-range access is undefined behaviour, here
`none`. -/
def transcode_patterns (enc : wstring → ddbuff) (s_finders s_replaces : List wstring) :
    Option (List ddbuff × List ddbuff) :=
  (List.range s_finders.length).foldlM
    (fun (acc : List ddbuff × List ddbuff) i =>
      match s_finders[i]?, s_replaces[i]? with
      | some finder, some replace => some (acc.1 ++ [enc finder], acc.2 ++ [enc replace])
      | _, _ => none)
    ([], [])

/-- Reading a byte sequence back as little-endian 16-bit code units
(the reader the round-trip property of the specification speaks of). -/
def spec_read_utf16le : ddbuff → wstring
  | lo :: hi :: rest => (lo + 256 * hi) :: spec_read_utf16le rest
  | _ => []

/-- Swapping the two bytes of every consecutive pair of a byte sequence
(the byte-swap the specification relates the two UTF-16 variants by). -/
def spec_swap_pairs : ddbuff → ddbuff
  | a :: b :: rest => b :: a :: spec_swap_pairs rest
  | rest => rest

/-- Modelled from the spec: the enumeration `ddfile_type` is declared in the
`ddbase` library, which is not part of the sources. Its values are the six
encodings of the specification's data model (`Unknown`, `AnsiOrUtf8`, `Ansi`,
`Utf8WithBom`, `Utf16LittleEndian`, `Utf16BigEndian`), under the names
`main.cpp` uses for them. -/
inductive ddfile_type
  | unknown
  | utf8_or_ansi
  | utf8bom
  | ansi
  | utf16le
  | utf16be
  deriving DecidableEq, Repr

/-- What a run does that can be observed from outside `main.cpp`: the text it
prints and the calls it makes into the `ddbase` library on the target file,
each with its arguments and, for the I/O calls, whether the call succeeded. -/
inductive Event
  /-- The four lines of usage text printed by `help()`. -/
  | help
  /-- The red line "... can not open as a file" for the given path. -/
  | log_red (path : wstring)
  /-- The green line "Operation successful, took a total of ... milliseconds." -/
  | log_green
  /-- The call `ddfile::get_file_type(s_src_path)`. -/
  | get_file_type (path : wstring)
  /-- The call `ddfile::create_utf8_file(s_src_path)`; `ok` is false when it returns `nullptr`. -/
  | create_utf8_file (path : wstring) (ok : Bool)
  /-- The call `src_file->read(src_buff.data(), size)`. -/
  | read (size : Int) (ok : Bool)
  /-- The call `ddstr::buff_replace_ex(src_buff, finder_buffs, replace_buffs, new_buff)`. -/
  | buff_replace_ex (src_buff : ddbuff) (finder_buffs replace_buffs : List ddbuff)
  /-- The call `src_file->resize(size)`. -/
  | resize (size : Nat) (ok : Bool)
  /-- The call `src_file->seek(pos)`. -/
  | seek (pos : Nat) (ok : Bool)
  /-- The call `src_file->write(new_buff.data(), size)`. -/
  | write (buff : ddbuff) (size : Int) (ok : Bool)
  deriving DecidableEq, Repr

/-- The operations of the `ddbase` library that `main.cpp` calls. The library
is not part of the sources, so `replace_file` takes them as a parameter. `F` is
the state of the target file (what is on disk, and the handle once it is
open). Each I/O operation returns the new state and whether it succeeded;
`read` also returns the bytes it stored at the start of the caller's buffer. -/
structure ddbase (F : Type) where
  /-- The call `ddfile::get_file_type(path)`: the detected encoding. -/
  get_file_type : wstring → F → ddfile_type
  /-- The call `ddstr::utf16_8(text)`. -/
  utf16_8 : wstring → ddbuff
  /-- The call `ddstr::utf16_ansi(text)`. -/
  utf16_ansi : wstring → ddbuff
  /-- The call `ddfile::create_utf8_file(path)`: `none` is `nullptr`. -/
  create_utf8_file : wstring → F → Option F
  /-- The call `src_file->file_size()`. -/
  file_size : F → Nat
  /-- The call `src_file->read(buff, size)`. -/
  read : F → Int → F × ddbuff × Bool
  /-- The call `ddstr::buff_replace_ex(src, finders, replaces, out)`: the value left in `out`. -/
  buff_replace_ex : ddbuff → List ddbuff → List ddbuff → ddbuff
  /-- The call `src_file->resize(size)`. -/
  resize : F → Nat → F × Bool
  /-- The call `src_file->seek(pos)`. -/
  seek : F → Nat → F × Bool
  /-- The call `src_file->write(buff, size)`. -/
  write : F → ddbuff → Int → F × Bool

/-- The state of a run: the static variables of `main.cpp` (`s_src_path`,
`s_force_utf8`, `s_finders`, `s_replaces`, `s_result`), what the run has done
so far (`trace`), the target file (`file`), and the local buffers of
`replace_file` as they stand when it returns (all empty before it runs). -/
structure State (F : Type) where
  s_src_path : wstring
  s_force_utf8 : Bool
  s_finders : List wstring
  s_replaces : List wstring
  s_result : Int
  trace : List Event
  file : F
  finder_buffs : List ddbuff
  replace_buffs : List ddbuff
  src_buff : ddbuff
  new_buff : ddbuff
  deriving DecidableEq

/-- The function `log(color, text)`: one more line on the console. -/
def log {F : Type} (st : State F) (e : Event) : State F :=
  { st with trace := st.trace ++ [e] }

/-- The function `help()`: prints the usage text. -/
def help {F : Type} (st : State F) : State F :=
  log st Event.help

/-- Lines 51-57 of `replace_file`: an ambiguous `utf8_or_ansi` is resolved by
`s_force_utf8`; any other type is kept. -/
def resolve_type (type : ddfile_type) (s_force_utf8 : Bool) : ddfile_type :=
  if type = ddfile_type.utf8_or_ansi then
    if s_force_utf8 then ddfile_type.utf8bom else ddfile_type.ansi
  else type

/-- Lines 59-120 of `replace_file`: the branch of the resolved type fills
`finder_buffs` and `replace_buffs`; no branch is taken for any other type. -/
def transcode_branch {F : Type} (lib : ddbase F) (type : ddfile_type)
    (s_finders s_replaces : List wstring) : Option (List ddbuff × List ddbuff) :=
  if type = ddfile_type.utf8bom then
    transcode_patterns lib.utf16_8 s_finders s_replaces
  else if type = ddfile_type.ansi then
    transcode_patterns lib.utf16_ansi s_finders s_replaces
  else if type = ddfile_type.utf16le then
    transcode_patterns utf16le_buff s_finders s_replaces
  else if type = ddfile_type.utf16be then
    transcode_patterns utf16be_buff s_finders s_replaces
  else
    some ([], [])

/-- Lines 122-136 of `replace_file`: the file is opened, read whole, replaced
and written back. `src_buff` is created with `file_size()` zero bytes and
`read` stores what it read at its start. The values the I/O calls return are
discarded, as in the source: `s_result = 0` and the green line follow
unconditionally once the file is open. -/
def write_back {F : Type} (lib : ddbase F) (st : State F)
    (finder_buffs replace_buffs : List ddbuff) : State F :=
  let st := { st with finder_buffs := finder_buffs, replace_buffs := replace_buffs }
  match lib.create_utf8_file st.s_src_path st.file with
  | none => help (log st (Event.create_utf8_file st.s_src_path false))
  | some src_file =>
    let st := log st (Event.create_utf8_file st.s_src_path true)
    let size := lib.file_size src_file
    let r := lib.read src_file (s32 size)
    let src_buff := r.2.1 ++ (List.replicate size 0).drop r.2.1.length
    let st := log st (Event.read (s32 size) r.2.2)
    let new_buff := lib.buff_replace_ex src_buff finder_buffs replace_buffs
    let st := log st (Event.buff_replace_ex src_buff finder_buffs replace_buffs)
    let z := lib.resize r.1 new_buff.length
    let st := log st (Event.resize new_buff.length z.2)
    let k := lib.seek z.1 0
    let st := log st (Event.seek 0 k.2)
    let w := lib.write k.1 new_buff (s32 new_buff.length)
    let st := log st (Event.write new_buff (s32 new_buff.length) w.2)
    log { st with file := w.1, src_buff := src_buff, new_buff := new_buff, s_result := 0 }
      Event.log_green

/-- The function `replace_file()`: detection (lines 40-45), resolution
(`resolve_type`), transcoding (`transcode_branch`), then `write_back`. The
result is `none` when the run has undefined behaviour (an out-of-range
`s_replaces[i]`). -/
def replace_file {F : Type} (lib : ddbase F) (st : State F) : Option (State F) :=
  let type := lib.get_file_type st.s_src_path st.file
  let st := log st (Event.get_file_type st.s_src_path)
  if type = ddfile_type.unknown then
    some (help (log st (Event.log_red st.s_src_path)))
  else
    let type := resolve_type type st.s_force_utf8
    match transcode_branch lib type st.s_finders st.s_replaces with
    | none => none
    | some (finder_buffs, replace_buffs) => some (write_back lib st finder_buffs replace_buffs)

/-- The literal `L"-help"`. -/
def lit_help : wstring := [45, 104, 101, 108, 112]

/-- The literal `L"-utf8"`. -/
def lit_utf8 : wstring := [45, 117, 116, 102, 56]

/-- The literal `L"-p"`. -/
def lit_p : wstring := [45, 112]

/-- How the `for` loop of `process_cmds` ends. -/
inductive LoopExit (F : Type)
  /-- A `return` inside the loop, after `help()`. -/
  | returned (st : State F)
  /-- The loop condition `i < cmds.size()` became false. -/
  | finished (st : State F)
  /-- The model ran out of iterations (never the case from `process_cmds`). -/
  | out_of_fuel

/-- The loop `for (size_t i = 2; i < cmds.size(); ++i)` of `process_cmds`, from
index `i` on, with at most `fuel` evaluations of the loop condition. -/
def process_loop {F : Type} (cmds : List wstring) : Nat → Nat → State F → LoopExit F
  | 0, _, _ => LoopExit.out_of_fuel
  | fuel + 1, i, st =>
    if h : i < cmds.length then
      if cmds[i] = lit_help then
        LoopExit.returned (help st)
      else if cmds[i] = lit_utf8 then
        process_loop cmds fuel (i + 1) { st with s_force_utf8 := true }
      else if cmds[i] = lit_p then
        if h2 : i + 2 ≥ cmds.length then
          LoopExit.returned (help st)
        else
          process_loop cmds fuel (i + 2 + 1)
            { st with s_finders := st.s_finders ++ [cmds[i + 2 - 1]],
                      s_replaces := st.s_replaces ++ [cmds[i + 2]] }
      else
        process_loop cmds fuel (i + 1) st
    else
      LoopExit.finished st

/-- The function `process_cmds(cmds)`. Every pass of the loop advances `i`, so
`cmds.size()` evaluations of the loop condition are enough from `i = 2`. -/
def process_cmds {F : Type} (lib : ddbase F) (cmds : List wstring) (st : State F) :
    Option (State F) :=
  if h : cmds.length < 2 then
    some (help st)
  else
    match process_loop cmds cmds.length 2 { st with s_src_path := cmds[1] } with
    | LoopExit.returned st => some st
    | LoopExit.finished st => replace_file lib st
    | LoopExit.out_of_fuel => none

/-- The static variables as the program starts (`s_result = 1`,
`s_force_utf8 = false`, empty pattern lists), over the given target file. -/
def initial {F : Type} (file : F) : State F :=
  { s_src_path := [], s_force_utf8 := false, s_finders := [], s_replaces := [],
    s_result := 1, trace := [], file := file,
    finder_buffs := [], replace_buffs := [], src_buff := [], new_buff := [] }

/-- The state in which `ddmain()` returns, on the command line `cmds`
(what `ddcmd_line_utils::get_cmds` yields, program name first). -/
def run {F : Type} (lib : ddbase F) (cmds : List wstring) (file : F) : Option (State F) :=
  process_cmds lib cmds (initial file)

/-- The function `ddmain()`: the exit code `s_result` of the run. -/
def ddmain {F : Type} (lib : ddbase F) (cmds : List wstring) (file : F) : Option Int :=
  (run lib cmds file).map (fun st => st.s_result)

/-! ## The command line, in the words of the specification -/

/-- The command-line tokens after the path, read as the specification reads
them (section 6): whether reading stops early, on a `-help` in flag position
or on a `-p` that is followed by fewer than two tokens. The two tokens after a
`-p` are its operands and are not in flag position. -/
def spec_stops_early : List wstring → Bool
  | [] => false
  | tok :: rest =>
    if tok = lit_help then true
    else if tok = lit_utf8 then spec_stops_early rest
    else if tok = lit_p then
      match rest with
      | _ :: _ :: rest2 => spec_stops_early rest2
      | _ => true
    else spec_stops_early rest

/-- The (finder, replacement) pairs of the `-p` tokens in flag position, in
command-line order: each is the token after the `-p` and the token after that. -/
def spec_pairs : List wstring → List (wstring × wstring)
  | [] => []
  | tok :: rest =>
    if tok = lit_help then []
    else if tok = lit_utf8 then spec_pairs rest
    else if tok = lit_p then
      match rest with
      | finder :: replace :: rest2 => (finder, replace) :: spec_pairs rest2
      | _ => []
    else spec_pairs rest

/-- Whether a `-utf8` token stands in flag position (before reading stops). -/
def spec_utf8 : List wstring → Bool
  | [] => false
  | tok :: rest =>
    if tok = lit_help then false
    else if tok = lit_utf8 then true
    else if tok = lit_p then
      match rest with
      | _ :: _ :: rest2 => spec_utf8 rest2
      | _ => false
    else spec_utf8 rest

/-- The static variables when `process_cmds` has read the whole command line
`cmds`, in the words of the specification: the path is `cmds[1]`, the flag and
the pattern pairs are those of the tokens after it. -/
def spec_parsed {F : Type} (cmds : List wstring) (file : F) : State F :=
  { initial file with
    s_src_path := cmds.getD 1 []
    s_force_utf8 := spec_utf8 (cmds.drop 2)
    s_finders := (spec_pairs (cmds.drop 2)).map Prod.fst
    s_replaces := (spec_pairs (cmds.drop 2)).map Prod.snd }

/-- The transcoder contract of the specification (section 4.2) for a resolved
encoding: `ddstr::utf16_8` for `utf8bom`, `ddstr::utf16_ansi` for `ansi`, low
byte then high byte for `utf16le`, high byte then low byte for `utf16be`. -/
def spec_transcode {F : Type} (lib : ddbase F) (type : ddfile_type) (text : wstring) : ddbuff :=
  match type with
  | ddfile_type.utf8bom => lib.utf16_8 text
  | ddfile_type.ansi => lib.utf16_ansi text
  | ddfile_type.utf16le => text.flatMap (fun c => [c % 256, c / 256 % 256])
  | ddfile_type.utf16be => text.flatMap (fun c => [c / 256 % 256, c % 256])
  | _ => []

/-! ## The buffer replacer and the file, from the specification -/

/-- Modelled from the spec: one step of `ddstr::buff_replace_ex` (the function
is in the `ddbase` library, not in the sources). Section 4.3: at the cursor the
finders are tested in pattern-list order for a literal byte match starting
there, a zero-length finder never matches, and the first one that matches
wins. The result is that finder and its replacement. -/
def spec_first_match (src : ddbuff) : List ddbuff → List ddbuff → Option (ddbuff × ddbuff)
  | finder :: finders, replace :: replaces =>
    if finder ≠ [] ∧ finder <+: src then some (finder, replace)
    else spec_first_match src finders replaces
  | _, _ => none

/-- Modelled from the spec: the single left-to-right pass of
`ddstr::buff_replace_ex` over what is left of the source at the cursor
(section 4.3). On a match the replacement is appended and the cursor advances
by the length of the finder; otherwise the byte at the cursor is appended and
the cursor advances by one. `fuel` bounds the number of cursor positions
visited. -/
def spec_replace_from (finders replaces : List ddbuff) : Nat → ddbuff → ddbuff
  | 0, _ => []
  | _ + 1, [] => []
  | fuel + 1, b :: rest =>
    match spec_first_match (b :: rest) finders replaces with
    | some (finder, replace) =>
      replace ++ spec_replace_from finders replaces fuel ((b :: rest).drop finder.length)
    | none => b :: spec_replace_from finders replaces fuel rest

/-- Modelled from the spec: `ddstr::buff_replace_ex(src, finders, replaces, out)`,
the value left in `out` (section 4.3). The cursor advances at every step, so
`src.size()` cursor positions are enough. -/
def spec_buff_replace_ex (src : ddbuff) (finders replaces : List ddbuff) : ddbuff :=
  spec_replace_from finders replaces src.length src

/-- Modelled from the spec: the target file as the abstract byte-addressable
file handle of section 1 (the `ddfile` class is in the `ddbase` library, not in
the sources): its bytes and the offset of the handle. -/
structure MemFile where
  content : List Nat
  pos : Nat
  deriving DecidableEq, Repr

/-- Modelled from the spec: `ddfile::read(buff, size)` on the abstract file:
the next `size` bytes from the offset (fewer at the end of the file) are
stored in the buffer and the offset moves past them. A negative `size` reads
nothing and is reported as a failure. -/
def mem_read (f : MemFile) (size : Int) : MemFile × ddbuff × Bool :=
  let data := (f.content.drop f.pos).take size.toNat
  ({ f with pos := f.pos + data.length }, data, decide (0 ≤ size))

/-- Modelled from the spec: `ddfile::resize(size)` on the abstract file
("truncate-to-size"): the content is cut to `size` bytes, or extended with
zero bytes up to `size`. -/
def mem_resize (f : MemFile) (size : Nat) : MemFile × Bool :=
  ({ f with content := f.content.take size ++ List.replicate (size - f.content.length) 0 }, true)

/-- Modelled from the spec: `ddfile::seek(pos)` on the abstract file. -/
def mem_seek (f : MemFile) (pos : Nat) : MemFile × Bool :=
  ({ f with pos := pos }, true)

/-- Modelled from the spec: `ddfile::write(buff, size)` on the abstract file
("write-at-offset"): the first `size` bytes of the buffer replace the bytes of
the file from the offset on, the file growing as needed, and the offset moves
past them. A negative `size` writes nothing and is reported as a failure. -/
def mem_write (f : MemFile) (buff : ddbuff) (size : Int) : MemFile × Bool :=
  let data := buff.take size.toNat
  ({ content := f.content.take f.pos ++ List.replicate (f.pos - f.content.length) 0 ++ data
                 ++ f.content.drop (f.pos + data.length),
     pos := f.pos + data.length }, decide (0 ≤ size))

/-- The `ddbase` library over the abstract file: the detector answers `type`,
opening succeeds and leaves the handle at offset 0, and the transcoders and the
replacer are the given ones. -/
def mem_lib (type : ddfile_type) (utf16_8 utf16_ansi : wstring → ddbuff)
    (buff_replace_ex : ddbuff → List ddbuff → List ddbuff → ddbuff) : ddbase MemFile :=
  { get_file_type := fun _ _ => type
    utf16_8 := utf16_8
    utf16_ansi := utf16_ansi
    create_utf8_file := fun _ f => some { f with pos := 0 }
    file_size := fun f => f.content.length
    read := mem_read
    buff_replace_ex := buff_replace_ex
    resize := mem_resize
    seek := mem_seek
    write := mem_write }

/-- Modelled from the spec: `ddstr::utf16_8` and `ddstr::utf16_ansi` (in the
`ddbase` library, not in the sources) on 7-bit ASCII text, the only text of the
concrete examples: standard UTF-8 and the ANSI code pages store an ASCII code
unit as the one byte of the same value. -/
def ascii_bytes (text : wstring) : ddbuff := text.map u8

/-- The library of the concrete examples: the abstract file, the replacer of
the specification, ASCII transcoders, and a detector that answers `type`. -/
def example_lib (type : ddfile_type) : ddbase MemFile :=
  mem_lib type ascii_bytes ascii_bytes spec_buff_replace_ex

/-- Modelled from the spec: `ddstr::utf16_8` (in the `ddbase` library, not in
the sources) on text of code units below `0x800`, the only text of the example
that uses it: standard UTF-8 stores a code unit below `0x80` as the one byte of
the same value and one below `0x800` as the two bytes `0xC0 + c / 64` and
`0x80 + c % 64`. -/
def utf8_bytes (text : wstring) : ddbuff :=
  text.flatMap (fun c => if c < 0x80 then [c] else [0xC0 + c / 64, 0x80 + c % 64])

/-- Modelled from the spec: `ddstr::utf16_ansi` (in the `ddbase` library, not in
the sources) under the ANSI code page 1252, on text of ASCII code units and
code units from `0xA0` to `0xFF`, the only text of the example that uses it:
the code page stores such a code unit as the one byte of the same value. -/
def cp1252_bytes (text : wstring) : ddbuff := text.map u8

/-- The library of the example that tells the two readings of an ambiguous
file apart: the abstract file, the replacer of the specification, UTF-8 for
`ddstr::utf16_8` and code page 1252 for `ddstr::utf16_ansi`. -/
def latin1_lib (type : ddfile_type) : ddbase MemFile :=
  mem_lib type utf8_bytes cp1252_bytes spec_buff_replace_ex

/-- The library of the concrete examples over a file that cannot be changed:
`resize` and `write` fail and leave the file as it is. -/
def readonly_lib (type : ddfile_type) : ddbase MemFile :=
  { example_lib type with
    resize := fun f _ => (f, false)
    write := fun f _ _ => (f, false) }

/-- The code units of an ASCII text. -/
def L (s : String) : wstring := s.toList.map Char.toNat

/-- The state of the concrete examples before `replace_file` runs: the static
variables as `process_cmds` leaves them for the path `a.txt`, the given flag
and the given pattern lists, over the given file. -/
def example_state (flag : Bool) (s_finders s_replaces : List wstring) (file : MemFile) :
    State MemFile :=
  { initial file with
    s_src_path := L "a.txt"
    s_force_utf8 := flag
    s_finders := s_finders
    s_replaces := s_replaces }

/-! ## The UTF-16 transcoding loops -/

theorem foldl_push_pair (g : Nat → List Nat) (text : wstring) (acc : ddbuff) :
    text.foldl (fun buff c => buff ++ g c) acc = acc ++ text.flatMap g := by
  induction text generalizing acc with
  | nil => simp
  | cons c rest ih => simp [ih]

theorem utf16le_buff_cons (c : Nat) (rest : wstring) :
    utf16le_buff (c :: rest) = u8 c :: u8 (c >>> 8) :: utf16le_buff rest := by
  have h1 := foldl_push_pair (fun c => [u8 c, u8 (c >>> 8)]) (c :: rest) []
  have h2 := foldl_push_pair (fun c => [u8 c, u8 (c >>> 8)]) rest []
  simp only [utf16le_buff]
  rw [h1, h2]
  simp

theorem utf16be_buff_cons (c : Nat) (rest : wstring) :
    utf16be_buff (c :: rest) = u8 (c >>> 8) :: u8 c :: utf16be_buff rest := by
  have h1 := foldl_push_pair (fun c => [u8 (c >>> 8), u8 c]) (c :: rest) []
  have h2 := foldl_push_pair (fun c => [u8 (c >>> 8), u8 c]) rest []
  simp only [utf16be_buff]
  rw [h1, h2]
  simp

theorem u8_low (c : Nat) : u8 c = c % 256 := rfl

theorem u8_high (c : Nat) (h : c < 65536) : u8 (c >>> 8) = c / 256 := by
  simp only [u8, Nat.shiftRight_eq_div_pow]
  omega

theorem utf16le_buff_bytes (text : wstring) (h : ∀ c ∈ text, c < 65536) :
    utf16le_buff text = text.flatMap (fun c => [c % 256, c / 256]) := by
  induction text with
  | nil => rfl
  | cons c rest ih =>
    rw [utf16le_buff_cons, ih (fun d hd => h d (List.mem_cons_of_mem _ hd)),
      u8_high c (h c (List.mem_cons_self _ _)), u8_low]
    simp

theorem utf16be_buff_bytes (text : wstring) (h : ∀ c ∈ text, c < 65536) :
    utf16be_buff text = text.flatMap (fun c => [c / 256, c % 256]) := by
  induction text with
  | nil => rfl
  | cons c rest ih =>
    rw [utf16be_buff_cons, ih (fun d hd => h d (List.mem_cons_of_mem _ hd)),
      u8_high c (h c (List.mem_cons_self _ _)), u8_low]
    simp

theorem utf16le_buff_length (text : wstring) : (utf16le_buff text).length = 2 * text.length := by
  induction text with
  | nil => rfl
  | cons c rest ih => rw [utf16le_buff_cons]; simp [ih]; omega

theorem utf16be_buff_length (text : wstring) : (utf16be_buff text).length = 2 * text.length := by
  induction text with
  | nil => rfl
  | cons c rest ih => rw [utf16be_buff_cons]; simp [ih]; omega

theorem spec_read_utf16le_buff (text : wstring) (h : ∀ c ∈ text, c < 65536) :
    spec_read_utf16le (utf16le_buff text) = text := by
  induction text with
  | nil => rfl
  | cons c rest ih =>
    rw [utf16le_buff_cons, spec_read_utf16le, ih (fun d hd => h d (List.mem_cons_of_mem _ hd)),
      u8_high c (h c (List.mem_cons_self _ _)), u8_low]
    congr 1
    omega

theorem utf16be_eq_swap_utf16le (text : wstring) :
    utf16be_buff text = spec_swap_pairs (utf16le_buff text) := by
  induction text with
  | nil => rfl
  | cons c rest ih => rw [utf16be_buff_cons, utf16le_buff_cons, spec_swap_pairs, ih]

theorem utf16_bytes_at (text : wstring) (j : Nat) :
    (utf16le_buff text)[2 * j]? = text[j]?.map u8 ∧
    (utf16le_buff text)[2 * j + 1]? = text[j]?.map (fun c => u8 (c >>> 8)) ∧
    (utf16be_buff text)[2 * j]? = text[j]?.map (fun c => u8 (c >>> 8)) ∧
    (utf16be_buff text)[2 * j + 1]? = text[j]?.map u8 := by
  induction text generalizing j with
  | nil => simp [utf16le_buff, utf16be_buff]
  | cons c rest ih =>
    rw [utf16be_buff_cons, utf16le_buff_cons]
    cases j with
    | zero => simp
    | succ k =>
      have e1 : 2 * (k + 1) = 2 * k + 1 + 1 := by omega
      have e2 : 2 * (k + 1) + 1 = 2 * k + 1 + 1 + 1 := by omega
      rw [e2, e1]
      simpa using ih k

/-! ## The pattern loop -/

theorem transcode_patterns_steps (enc : wstring → ddbuff) (s_finders s_replaces : List wstring)
    (hlen : s_finders.length = s_replaces.length) (k : Nat) (hk : k ≤ s_finders.length) :
    (List.range k).foldlM
      (fun (acc : List ddbuff × List ddbuff) i =>
        match s_finders[i]?, s_replaces[i]? with
        | some finder, some replace => some (acc.1 ++ [enc finder], acc.2 ++ [enc replace])
        | _, _ => none)
      ([], [])
    = some ((s_finders.take k).map enc, (s_replaces.take k).map enc) := by
  induction k with
  | zero => rfl
  | succ k ih =>
    have h1 : k < s_finders.length := by omega
    have h2 : k < s_replaces.length := by omega
    have e1 : s_finders[k]? = some s_finders[k] := List.getElem?_eq_getElem h1
    have e2 : s_replaces[k]? = some s_replaces[k] := List.getElem?_eq_getElem h2
    rw [List.range_succ, List.foldlM_append, ih (by omega), List.take_succ, List.take_succ]
    simp only [List.foldlM, e1, e2, bind, Option.bind, pure, Option.toList, List.map_append,
      List.map]

theorem transcode_patterns_eq (enc : wstring → ddbuff) (s_finders s_replaces : List wstring)
    (hlen : s_finders.length = s_replaces.length) :
    transcode_patterns enc s_finders s_replaces
      = some (s_finders.map enc, s_replaces.map enc) := by
  have h := transcode_patterns_steps enc s_finders s_replaces hlen s_finders.length (le_refl _)
  rw [transcode_patterns, h, List.take_length, hlen, List.take_length]

/-! ## The command-line loop -/

theorem lit_eq_text : lit_help = L "-help" ∧ lit_utf8 = L "-utf8" ∧ lit_p = L "-p" := by decide

theorem lit_utf8_ne_help : lit_utf8 ≠ lit_help := by decide

theorem lit_p_ne_help : lit_p ≠ lit_help := by decide

theorem lit_p_ne_utf8 : lit_p ≠ lit_utf8 := by decide

theorem spec_stops_early_cons (tok : wstring) (rest : List wstring) :
    spec_stops_early (tok :: rest) =
      if tok = lit_help then true
      else if tok = lit_utf8 then spec_stops_early rest
      else if tok = lit_p then
        match rest with
        | _ :: _ :: rest2 => spec_stops_early rest2
        | _ => true
      else spec_stops_early rest := by
  cases rest with
  | nil => simp [spec_stops_early]
  | cons a r => cases r <;> simp [spec_stops_early]

theorem spec_pairs_cons (tok : wstring) (rest : List wstring) :
    spec_pairs (tok :: rest) =
      if tok = lit_help then []
      else if tok = lit_utf8 then spec_pairs rest
      else if tok = lit_p then
        match rest with
        | finder :: replace :: rest2 => (finder, replace) :: spec_pairs rest2
        | _ => []
      else spec_pairs rest := by
  cases rest with
  | nil => simp [spec_pairs]
  | cons a r => cases r <;> simp [spec_pairs]

theorem spec_utf8_cons (tok : wstring) (rest : List wstring) :
    spec_utf8 (tok :: rest) =
      if tok = lit_help then false
      else if tok = lit_utf8 then true
      else if tok = lit_p then
        match rest with
        | _ :: _ :: rest2 => spec_utf8 rest2
        | _ => false
      else spec_utf8 rest := by
  cases rest with
  | nil => simp [spec_utf8]
  | cons a r => cases r <;> simp [spec_utf8]

/-- The state `process_cmds` has built when the loop ends, in the words of the
specification: the flag and the pairs of the tokens from index `i` on are
added to those of `st`. -/
theorem process_loop_spec {F : Type} (cmds : List wstring) (fuel i : Nat) (st : State F)
    (hi : i ≤ cmds.length) (hfuel : cmds.length < fuel + i) :
    process_loop cmds fuel i st =
      if spec_stops_early (cmds.drop i) = true then
        LoopExit.returned (help
          { st with s_force_utf8 := st.s_force_utf8 || spec_utf8 (cmds.drop i),
                    s_finders := st.s_finders ++ (spec_pairs (cmds.drop i)).map Prod.fst,
                    s_replaces := st.s_replaces ++ (spec_pairs (cmds.drop i)).map Prod.snd })
      else
        LoopExit.finished
          { st with s_force_utf8 := st.s_force_utf8 || spec_utf8 (cmds.drop i),
                    s_finders := st.s_finders ++ (spec_pairs (cmds.drop i)).map Prod.fst,
                    s_replaces := st.s_replaces ++ (spec_pairs (cmds.drop i)).map Prod.snd } := by
  induction fuel generalizing i st with
  | zero => omega
  | succ fuel ih =>
    rw [process_loop]
    by_cases h : i < cmds.length
    · rw [dif_pos h, List.drop_eq_getElem_cons h, spec_stops_early_cons, spec_pairs_cons,
        spec_utf8_cons]
      by_cases hhelp : cmds[i] = lit_help
      · simp only [hhelp, if_true, List.map_nil, List.append_nil, Bool.or_false]
      · by_cases hutf8 : cmds[i] = lit_utf8
        · rw [if_neg hhelp, if_pos hutf8, ih (i + 1) _ (by omega) (by omega)]
          simp only [hutf8, lit_utf8_ne_help, if_true, if_false, Bool.or_true, Bool.true_or]
        · by_cases hp : cmds[i] = lit_p
          · rw [if_neg hhelp, if_neg hutf8, if_pos hp]
            simp only [hp, lit_p_ne_help, lit_p_ne_utf8, if_true, if_false]
            by_cases h2 : i + 2 ≥ cmds.length
            · rw [dif_pos h2]
              have hlen : (cmds.drop (i + 1)).length < 2 := by rw [List.length_drop]; omega
              rcases hd : cmds.drop (i + 1) with _ | ⟨a, _ | ⟨b, r⟩⟩
              · simp only [if_true, List.map_nil, List.append_nil, Bool.or_false]
              · simp only [if_true, List.map_nil, List.append_nil, Bool.or_false]
              · exfalso
                rw [hd] at hlen
                simp only [List.length_cons] at hlen
                omega
            · rw [dif_neg h2, ih (i + 2 + 1) _ (by omega) (by omega)]
              have e1 : cmds.drop (i + 1) = cmds[i + 1] :: cmds[i + 2] :: cmds.drop (i + 2 + 1) := by
                rw [List.drop_eq_getElem_cons (by omega), List.drop_eq_getElem_cons (by omega)]
              rw [e1]
              simp only [List.map_cons, List.append_assoc, List.singleton_append,
                Nat.add_sub_cancel]
              rfl
          · rw [if_neg hhelp, if_neg hutf8, if_neg hp, ih (i + 1) _ (by omega) (by omega)]
            simp only [hhelp, hutf8, hp, if_true, if_false]
    · have e : i = cmds.length := by omega
      subst e
      simp [spec_stops_early, spec_utf8, spec_pairs]

theorem run_eq {F : Type} (lib : ddbase F) (cmds : List wstring) (file : F) :
    run lib cmds file =
      if cmds.length < 2 then some (help (initial file))
      else if spec_stops_early (cmds.drop 2) = true then some (help (spec_parsed cmds file))
      else replace_file lib (spec_parsed cmds file) := by
  rw [run, process_cmds]
  by_cases h : cmds.length < 2
  · rw [dif_pos h, if_pos h]
  · rw [dif_neg h, if_neg h, process_loop_spec cmds cmds.length 2 _ (by omega) (by omega)]
    have e : cmds[1] = cmds.getD 1 [] := by
      rw [List.getD_eq_getElem?_getD, List.getElem?_eq_getElem (by omega)]
      rfl
    by_cases hs : spec_stops_early (cmds.drop 2) = true
    · rw [if_pos hs, if_pos hs]
      simp only [spec_parsed, initial, Bool.false_or, List.nil_append, e]
    · rw [if_neg hs, if_neg hs]
      simp only [spec_parsed, initial, Bool.false_or, List.nil_append, e]

/-! ## `replace_file` -/

theorem utf16le_buff_eq_flatMap (text : wstring) :
    utf16le_buff text = text.flatMap (fun c => [c % 256, c / 256 % 256]) := by
  have e : (2 : Nat) ^ 8 = 256 := by norm_num
  rw [utf16le_buff, foldl_push_pair]
  simp only [u8, Nat.shiftRight_eq_div_pow, List.nil_append, e]

theorem utf16be_buff_eq_flatMap (text : wstring) :
    utf16be_buff text = text.flatMap (fun c => [c / 256 % 256, c % 256]) := by
  have e : (2 : Nat) ^ 8 = 256 := by norm_num
  rw [utf16be_buff, foldl_push_pair]
  simp only [u8, Nat.shiftRight_eq_div_pow, List.nil_append, e]

theorem resolve_type_known (type : ddfile_type) (flag : Bool) (h : type ≠ ddfile_type.unknown) :
    resolve_type type flag = ddfile_type.utf8bom ∨ resolve_type type flag = ddfile_type.ansi ∨
    resolve_type type flag = ddfile_type.utf16le ∨ resolve_type type flag = ddfile_type.utf16be := by
  cases type <;> cases flag <;> simp [resolve_type] at h ⊢

theorem transcode_branch_eq {F : Type} (lib : ddbase F) (type : ddfile_type)
    (s_finders s_replaces : List wstring) (hlen : s_finders.length = s_replaces.length)
    (hty : type = ddfile_type.utf8bom ∨ type = ddfile_type.ansi ∨
      type = ddfile_type.utf16le ∨ type = ddfile_type.utf16be) :
    transcode_branch lib type s_finders s_replaces
      = some (s_finders.map (spec_transcode lib type), s_replaces.map (spec_transcode lib type)) := by
  have hle : utf16le_buff = spec_transcode lib ddfile_type.utf16le := by
    funext text
    exact utf16le_buff_eq_flatMap text
  have hbe : utf16be_buff = spec_transcode lib ddfile_type.utf16be := by
    funext text
    exact utf16be_buff_eq_flatMap text
  have h8 : lib.utf16_8 = spec_transcode lib ddfile_type.utf8bom := rfl
  have ha : lib.utf16_ansi = spec_transcode lib ddfile_type.ansi := rfl
  rcases hty with h | h | h | h <;> subst h <;>
    simp only [transcode_branch, if_true, if_false, reduceCtorEq] <;>
    first
      | rw [h8, transcode_patterns_eq _ _ _ hlen]
      | rw [ha, transcode_patterns_eq _ _ _ hlen]
      | rw [hle, transcode_patterns_eq _ _ _ hlen]
      | rw [hbe, transcode_patterns_eq _ _ _ hlen]

theorem replace_file_unknown {F : Type} (lib : ddbase F) (st : State F)
    (h : lib.get_file_type st.s_src_path st.file = ddfile_type.unknown) :
    replace_file lib st =
      some { st with trace := st.trace ++ [Event.get_file_type st.s_src_path,
                                           Event.log_red st.s_src_path, Event.help] } := by
  simp [replace_file, h, help, log]

theorem replace_file_known {F : Type} (lib : ddbase F) (st : State F)
    (h : lib.get_file_type st.s_src_path st.file ≠ ddfile_type.unknown)
    (hlen : st.s_finders.length = st.s_replaces.length) :
    replace_file lib st =
      some (write_back lib (log st (Event.get_file_type st.s_src_path))
        (st.s_finders.map (spec_transcode lib
          (resolve_type (lib.get_file_type st.s_src_path st.file) st.s_force_utf8)))
        (st.s_replaces.map (spec_transcode lib
          (resolve_type (lib.get_file_type st.s_src_path st.file) st.s_force_utf8)))) := by
  have hb := transcode_branch_eq lib _ st.s_finders st.s_replaces hlen
    (resolve_type_known _ st.s_force_utf8 h)
  simp only [replace_file, h, if_false, log]
  rw [hb]

theorem write_back_fields {F : Type} (lib : ddbase F) (st : State F)
    (fb rb : List ddbuff) :
    (write_back lib st fb rb).s_src_path = st.s_src_path ∧
    (write_back lib st fb rb).s_force_utf8 = st.s_force_utf8 ∧
    (write_back lib st fb rb).s_finders = st.s_finders ∧
    (write_back lib st fb rb).s_replaces = st.s_replaces ∧
    (write_back lib st fb rb).finder_buffs = fb ∧
    (write_back lib st fb rb).replace_buffs = rb := by
  cases hc : lib.create_utf8_file st.s_src_path st.file <;> simp [write_back, hc, help, log]

theorem write_back_get_file_type {F : Type} (lib : ddbase F) (st : State F)
    (fb rb : List ddbuff) (q : wstring) :
    Event.get_file_type q ∈ (write_back lib st fb rb).trace ↔ Event.get_file_type q ∈ st.trace := by
  cases hc : lib.create_utf8_file st.s_src_path st.file <;> simp [write_back, hc, help, log]

theorem write_back_replacer_call {F : Type} (lib : ddbase F) (st : State F)
    (fb rb : List ddbuff) (hst : ∀ s f r, Event.buff_replace_ex s f r ∉ st.trace)
    (src : ddbuff) (f r : List ddbuff)
    (h : Event.buff_replace_ex src f r ∈ (write_back lib st fb rb).trace) :
    f = fb ∧ r = rb := by
  cases hc : lib.create_utf8_file st.s_src_path st.file <;>
    simp [write_back, hc, help, log, hst] at h
  exact ⟨h.2.1, h.2.2⟩

theorem write_back_flag {F : Type} (lib : ddbase F) (st : State F) (fb rb : List ddbuff)
    (flag : Bool) :
    write_back lib { st with s_force_utf8 := flag } fb rb
      = { write_back lib st fb rb with s_force_utf8 := flag } := by
  cases hc : lib.create_utf8_file st.s_src_path st.file <;> simp [write_back, hc, help, log]

/-! ## Encoding resolution -/

theorem resolve_type_by_flag (type : ddfile_type) (flag : Bool) :
    resolve_type ddfile_type.utf8_or_ansi flag
      = (if flag then ddfile_type.utf8bom else ddfile_type.ansi) ∧
    (type ≠ ddfile_type.utf8_or_ansi → resolve_type type flag = type) ∧
    resolve_type ddfile_type.utf8bom flag = ddfile_type.utf8bom ∧
    resolve_type ddfile_type.ansi flag = ddfile_type.ansi ∧
    resolve_type ddfile_type.utf16le flag = ddfile_type.utf16le ∧
    resolve_type ddfile_type.utf16be flag = ddfile_type.utf16be ∧
    (∀ {F : Type} (lib : ddbase F) (st : State F),
      lib.get_file_type st.s_src_path st.file = type → type ≠ ddfile_type.utf8_or_ansi →
      replace_file lib { st with s_force_utf8 := flag }
        = (replace_file lib st).map (fun s => { s with s_force_utf8 := flag })) := by
  refine ⟨by simp [resolve_type], fun h => by simp [resolve_type, h], by simp [resolve_type],
    by simp [resolve_type], by simp [resolve_type], by simp [resolve_type], ?_⟩
  intro F lib st hty hne
  have e1 : resolve_type type flag = type := by simp [resolve_type, hne]
  have e2 : resolve_type type st.s_force_utf8 = type := by simp [resolve_type, hne]
  simp only [replace_file, hty, e1, e2, log]
  by_cases hu : type = ddfile_type.unknown
  · simp [hu, help, log]
  · simp only [hu, if_false]
    cases transcode_branch lib type st.s_finders st.s_replaces with
    | none => rfl
    | some p =>
      have h := write_back_flag lib
        { st with trace := st.trace ++ [Event.get_file_type st.s_src_path] } p.1 p.2 flag
      simp only [Option.map_some', h]

theorem spec_transcode_cases {F : Type} (lib : ddbase F) :
    spec_transcode lib ddfile_type.utf8bom = lib.utf16_8 ∧
    spec_transcode lib ddfile_type.ansi = lib.utf16_ansi ∧
    spec_transcode lib ddfile_type.utf16le = utf16le_buff ∧
    spec_transcode lib ddfile_type.utf16be = utf16be_buff := by
  refine ⟨rfl, rfl, ?_, ?_⟩
  · funext text
    exact (utf16le_buff_eq_flatMap text).symm
  · funext text
    exact (utf16be_buff_eq_flatMap text).symm

/-- C3: on a file of a known type `replace_file` returns, and the encoding it
transcodes every finder and every replacement with is the resolved one: on a
detected `utf8_or_ansi` that of `utf8bom` (`ddstr::utf16_8`) when the
force-UTF-8 flag is set and that of `ansi` (`ddstr::utf16_ansi`) otherwise; on
a detected `utf8bom`, `ansi`, `utf16le` or `utf16be` that of the detected type,
and then the run is the same for every value of the flag (only the flag itself
differs in the final state). The last conjunct is the resolution step of lines
51-57 on its own, for every type and flag. -/
theorem encoding_resolution {F : Type} (lib : ddbase F) (st : State F)
    (hlen : st.s_finders.length = st.s_replaces.length)
    (hu : lib.get_file_type st.s_src_path st.file ≠ ddfile_type.unknown) :
    ∃ st1, replace_file lib st = some st1 ∧
      (lib.get_file_type st.s_src_path st.file = ddfile_type.utf8_or_ansi →
        st1.finder_buffs
          = st.s_finders.map (if st.s_force_utf8 = true then lib.utf16_8 else lib.utf16_ansi) ∧
        st1.replace_buffs
          = st.s_replaces.map (if st.s_force_utf8 = true then lib.utf16_8 else lib.utf16_ansi)) ∧
      (lib.get_file_type st.s_src_path st.file = ddfile_type.utf8bom →
        st1.finder_buffs = st.s_finders.map lib.utf16_8 ∧
        st1.replace_buffs = st.s_replaces.map lib.utf16_8) ∧
      (lib.get_file_type st.s_src_path st.file = ddfile_type.ansi →
        st1.finder_buffs = st.s_finders.map lib.utf16_ansi ∧
        st1.replace_buffs = st.s_replaces.map lib.utf16_ansi) ∧
      (lib.get_file_type st.s_src_path st.file = ddfile_type.utf16le →
        st1.finder_buffs = st.s_finders.map utf16le_buff ∧
        st1.replace_buffs = st.s_replaces.map utf16le_buff) ∧
      (lib.get_file_type st.s_src_path st.file = ddfile_type.utf16be →
        st1.finder_buffs = st.s_finders.map utf16be_buff ∧
        st1.replace_buffs = st.s_replaces.map utf16be_buff) ∧
      (lib.get_file_type st.s_src_path st.file ≠ ddfile_type.utf8_or_ansi →
        ∀ flag, replace_file lib { st with s_force_utf8 := flag }
          = some { st1 with s_force_utf8 := flag }) ∧
      (∀ (type : ddfile_type) (flag : Bool),
        resolve_type ddfile_type.utf8_or_ansi flag
          = (if flag then ddfile_type.utf8bom else ddfile_type.ansi) ∧
        (type ≠ ddfile_type.utf8_or_ansi → resolve_type type flag = type) ∧
        resolve_type ddfile_type.utf8bom flag = ddfile_type.utf8bom ∧
        resolve_type ddfile_type.ansi flag = ddfile_type.ansi ∧
        resolve_type ddfile_type.utf16le flag = ddfile_type.utf16le ∧
        resolve_type ddfile_type.utf16be flag = ddfile_type.utf16be ∧
        (∀ {F : Type} (lib : ddbase F) (st : State F),
          lib.get_file_type st.s_src_path st.file = type → type ≠ ddfile_type.utf8_or_ansi →
          replace_file lib { st with s_force_utf8 := flag }
            = (replace_file lib st).map (fun s => { s with s_force_utf8 := flag }))) := by
  obtain ⟨c8, ca, cle, cbe⟩ := spec_transcode_cases lib
  have hf := write_back_fields lib (log st (Event.get_file_type st.s_src_path))
    (st.s_finders.map (spec_transcode lib
      (resolve_type (lib.get_file_type st.s_src_path st.file) st.s_force_utf8)))
    (st.s_replaces.map (spec_transcode lib
      (resolve_type (lib.get_file_type st.s_src_path st.file) st.s_force_utf8)))
  refine ⟨_, replace_file_known lib st hu hlen, ?_, ?_, ?_, ?_, ?_, ?_,
    fun type flag => resolve_type_by_flag type flag⟩
  · intro ht
    rw [hf.2.2.2.2.1, hf.2.2.2.2.2, ht]
    cases hflag : st.s_force_utf8
    · simp only [resolve_type, if_true, Bool.false_eq_true, if_false, ca]
      exact ⟨trivial, trivial⟩
    · simp only [resolve_type, if_true, c8]
      exact ⟨trivial, trivial⟩
  · intro ht
    rw [hf.2.2.2.2.1, hf.2.2.2.2.2, ht]
    simp only [resolve_type, reduceCtorEq, if_false, c8]
    exact ⟨trivial, trivial⟩
  · intro ht
    rw [hf.2.2.2.2.1, hf.2.2.2.2.2, ht]
    simp only [resolve_type, reduceCtorEq, if_false, ca]
    exact ⟨trivial, trivial⟩
  · intro ht
    rw [hf.2.2.2.2.1, hf.2.2.2.2.2, ht]
    simp only [resolve_type, reduceCtorEq, if_false, cle]
    exact ⟨trivial, trivial⟩
  · intro ht
    rw [hf.2.2.2.2.1, hf.2.2.2.2.2, ht]
    simp only [resolve_type, reduceCtorEq, if_false, cbe]
    exact ⟨trivial, trivial⟩
  · intro hne flag
    have h := (resolve_type_by_flag (lib.get_file_type st.s_src_path st.file) flag).2.2.2.2.2.2
      lib st rfl hne
    rw [h, replace_file_known lib st hu hlen]
    rfl

/-- The witness of C3: the finder `é` (code unit `0xE9`) and the replacement
`e` on a file without byte-order mark that holds `café` in UTF-8. With the flag
set the finder is transcoded by `ddstr::utf16_8` to `C3 A9` and the file ends
as `cafe`; with the flag unset it is transcoded by `ddstr::utf16_ansi` to `E9`,
which does not occur, and the file is as before. -/
theorem encoding_resolution_witness :
    (example_state true [[0xE9]] [[0x65]] ⟨[0x63, 0x61, 0x66, 0xC3, 0xA9], 0⟩).s_finders.length
      = (example_state true [[0xE9]] [[0x65]]
          ⟨[0x63, 0x61, 0x66, 0xC3, 0xA9], 0⟩).s_replaces.length ∧
    (latin1_lib ddfile_type.utf8_or_ansi).get_file_type
        (example_state true [[0xE9]] [[0x65]] ⟨[0x63, 0x61, 0x66, 0xC3, 0xA9], 0⟩).s_src_path
        (example_state true [[0xE9]] [[0x65]] ⟨[0x63, 0x61, 0x66, 0xC3, 0xA9], 0⟩).file
      ≠ ddfile_type.unknown ∧
    (∃ st1, replace_file (latin1_lib ddfile_type.utf8_or_ansi)
        (example_state true [[0xE9]] [[0x65]] ⟨[0x63, 0x61, 0x66, 0xC3, 0xA9], 0⟩) = some st1 ∧
      st1.finder_buffs = [[0xE9]].map (latin1_lib ddfile_type.utf8_or_ansi).utf16_8 ∧
      st1.replace_buffs = [[0x65]].map (latin1_lib ddfile_type.utf8_or_ansi).utf16_8 ∧
      st1.finder_buffs = [[0xC3, 0xA9]] ∧ st1.replace_buffs = [[0x65]] ∧
      st1.file.content = [0x63, 0x61, 0x66, 0x65]) ∧
    (∃ st1, replace_file (latin1_lib ddfile_type.utf8_or_ansi)
        (example_state false [[0xE9]] [[0x65]] ⟨[0x63, 0x61, 0x66, 0xC3, 0xA9], 0⟩) = some st1 ∧
      st1.finder_buffs = [[0xE9]].map (latin1_lib ddfile_type.utf8_or_ansi).utf16_ansi ∧
      st1.replace_buffs = [[0x65]].map (latin1_lib ddfile_type.utf8_or_ansi).utf16_ansi ∧
      st1.finder_buffs = [[0xE9]] ∧ st1.replace_buffs = [[0x65]] ∧
      st1.file.content = [0x63, 0x61, 0x66, 0xC3, 0xA9]) := by
  obtain ⟨s1, h1, a1, _⟩ := encoding_resolution (latin1_lib ddfile_type.utf8_or_ansi)
    (example_state true [[0xE9]] [[0x65]] ⟨[0x63, 0x61, 0x66, 0xC3, 0xA9], 0⟩) rfl
    (fun e => ddfile_type.noConfusion e)
  obtain ⟨s2, h2, a2, _⟩ := encoding_resolution (latin1_lib ddfile_type.utf8_or_ansi)
    (example_state false [[0xE9]] [[0x65]] ⟨[0x63, 0x61, 0x66, 0xC3, 0xA9], 0⟩) rfl
    (fun e => ddfile_type.noConfusion e)
  have e1 : (replace_file (latin1_lib ddfile_type.utf8_or_ansi)
      (example_state true [[0xE9]] [[0x65]] ⟨[0x63, 0x61, 0x66, 0xC3, 0xA9], 0⟩)).map
        (fun s => s.file.content) = some [0x63, 0x61, 0x66, 0x65] := by decide
  have e2 : (replace_file (latin1_lib ddfile_type.utf8_or_ansi)
      (example_state false [[0xE9]] [[0x65]] ⟨[0x63, 0x61, 0x66, 0xC3, 0xA9], 0⟩)).map
        (fun s => s.file.content) = some [0x63, 0x61, 0x66, 0xC3, 0xA9] := by decide
  rw [h1] at e1
  rw [h2] at e2
  simp only [Option.map_some', Option.some.injEq] at e1 e2
  have b1 := a1 rfl
  have b2 := a2 rfl
  refine ⟨rfl, fun e => ddfile_type.noConfusion e, ⟨s1, h1, b1.1, b1.2, ?_, ?_, e1⟩,
    ⟨s2, h2, b2.1, b2.2, ?_, ?_, e2⟩⟩
  · rw [b1.1]
    decide
  · rw [b1.2]
    decide
  · rw [b2.1]
    decide
  · rw [b2.2]
    decide

/-! ## Usage errors -/

/-- C7: on a command line with fewer than two tokens, or whose tokens after
the path stop the reading early (a `-help` in flag position, or a `-p` followed
by fewer than two tokens), the run prints the help text and does nothing else:
`replace_file` is not invoked (no library call on the file, the file and the
local buffers are as before) and `ddmain` returns 1. -/
theorem usage_error_only_shows_help {F : Type} (lib : ddbase F) (cmds : List wstring) (file : F)
    (h : cmds.length < 2 ∨ spec_stops_early (cmds.drop 2) = true) :
    ∃ st, run lib cmds file = some st ∧ st.trace = [Event.help] ∧ st.file = file ∧
      st.finder_buffs = [] ∧ st.replace_buffs = [] ∧ st.src_buff = [] ∧ st.new_buff = [] ∧
      st.s_result = 1 ∧ ddmain lib cmds file = some 1 := by
  rw [ddmain, run_eq]
  by_cases h2 : cmds.length < 2
  · rw [if_pos h2]
    exact ⟨_, rfl, rfl, rfl, rfl, rfl, rfl, rfl, rfl, rfl⟩
  · rw [if_neg h2, if_pos (h.resolve_left h2)]
    exact ⟨_, rfl, rfl, rfl, rfl, rfl, rfl, rfl, rfl, rfl⟩

/-- The witness of C7: `dd.exe a.txt -utf8 -p x`, a `-p` with one operand. -/
theorem usage_error_only_shows_help_witness :
    ([L "dd.exe", L "a.txt", L "-utf8", L "-p", L "x"].length < 2 ∨
      spec_stops_early ([L "dd.exe", L "a.txt", L "-utf8", L "-p", L "x"].drop 2) = true) ∧
    ∃ st, run (example_lib ddfile_type.utf16le) [L "dd.exe", L "a.txt", L "-utf8", L "-p", L "x"]
        ⟨L "xyz", 0⟩ = some st ∧ st.trace = [Event.help] ∧ st.file = ⟨L "xyz", 0⟩ ∧
      st.finder_buffs = [] ∧ st.replace_buffs = [] ∧ st.src_buff = [] ∧ st.new_buff = [] ∧
      st.s_result = 1 ∧
      ddmain (example_lib ddfile_type.utf16le) [L "dd.exe", L "a.txt", L "-utf8", L "-p", L "x"]
        ⟨L "xyz", 0⟩ = some 1 :=
  ⟨by decide, usage_error_only_shows_help _ _ _ (by decide)⟩

/-! ## Runs that reach `replace_file` -/

theorem run_reaches {F : Type} (lib : ddbase F) (cmds : List wstring) (file : F) (st : State F)
    (hrun : run lib cmds file = some st) (q : wstring)
    (hreach : Event.get_file_type q ∈ st.trace) :
    replace_file lib (spec_parsed cmds file) = some st ∧ q = cmds.getD 1 [] ∧
      spec_stops_early (cmds.drop 2) = false := by
  rw [run_eq] at hrun
  by_cases h2 : cmds.length < 2
  · rw [if_pos h2] at hrun
    cases hrun
    simp [help, log, initial] at hreach
  · rw [if_neg h2] at hrun
    by_cases hs : spec_stops_early (cmds.drop 2) = true
    · rw [if_pos hs] at hrun
      cases hrun
      simp [help, log, initial, spec_parsed] at hreach
    · rw [if_neg hs] at hrun
      refine ⟨hrun, ?_, by simpa using hs⟩
      by_cases hu : lib.get_file_type (spec_parsed cmds file).s_src_path (spec_parsed cmds file).file
          = ddfile_type.unknown
      · rw [replace_file_unknown lib _ hu] at hrun
        cases hrun
        simpa [spec_parsed, initial] using hreach
      · have hlen : (spec_parsed cmds file).s_finders.length
            = (spec_parsed cmds file).s_replaces.length := by
          simp [spec_parsed]
        rw [replace_file_known lib _ hu hlen] at hrun
        cases hrun
        rw [write_back_get_file_type] at hreach
        simpa [spec_parsed, initial, log] using hreach

theorem replace_file_not_unknown {F : Type} (lib : ddbase F) (st : State F)
    (hu : lib.get_file_type st.s_src_path st.file ≠ ddfile_type.unknown) :
    replace_file lib st =
      (transcode_branch lib (resolve_type (lib.get_file_type st.s_src_path st.file)
          st.s_force_utf8) st.s_finders st.s_replaces).map
        (fun p => write_back lib (log st (Event.get_file_type st.s_src_path)) p.1 p.2) := by
  simp only [replace_file, hu, if_false, log]
  cases transcode_branch lib (resolve_type (lib.get_file_type st.s_src_path st.file)
      st.s_force_utf8) st.s_finders st.s_replaces <;> rfl

theorem replace_file_globals {F : Type} (lib : ddbase F) (st st1 : State F)
    (h : replace_file lib st = some st1) :
    st1.s_src_path = st.s_src_path ∧ st1.s_force_utf8 = st.s_force_utf8 ∧
    st1.s_finders = st.s_finders ∧ st1.s_replaces = st.s_replaces := by
  by_cases hu : lib.get_file_type st.s_src_path st.file = ddfile_type.unknown
  · rw [replace_file_unknown lib st hu] at h
    cases h
    exact ⟨rfl, rfl, rfl, rfl⟩
  · rw [replace_file_not_unknown lib st hu] at h
    cases hb : transcode_branch lib (resolve_type (lib.get_file_type st.s_src_path st.file)
        st.s_force_utf8) st.s_finders st.s_replaces with
    | none => simp [hb] at h
    | some p =>
      simp only [hb, Option.map_some', Option.some.injEq] at h
      subst h
      have hf := write_back_fields lib (log st (Event.get_file_type st.s_src_path)) p.1 p.2
      exact ⟨hf.1, hf.2.1, hf.2.2.1, hf.2.2.2.1⟩

theorem run_total {F : Type} (lib : ddbase F) (cmds : List wstring) (file : F) :
    ∃ st, run lib cmds file = some st := by
  have hlen : (spec_parsed cmds file).s_finders.length
      = (spec_parsed cmds file).s_replaces.length := by
    simp [spec_parsed]
  rw [run_eq]
  by_cases h2 : cmds.length < 2
  · rw [if_pos h2]
    exact ⟨_, rfl⟩
  · rw [if_neg h2]
    by_cases hs : spec_stops_early (cmds.drop 2) = true
    · rw [if_pos hs]
      exact ⟨_, rfl⟩
    · rw [if_neg hs]
      by_cases hu : lib.get_file_type (spec_parsed cmds file).s_src_path
          (spec_parsed cmds file).file = ddfile_type.unknown
      · rw [replace_file_unknown lib _ hu]
        exact ⟨_, rfl⟩
      · rw [replace_file_known lib _ hu hlen]
        exact ⟨_, rfl⟩

/-- C4: every run ends in a defined state, and when `process_cmds` has reached
`replace_file` (the run has called the detector), the pattern list it has built
from empty lists is exactly the sequence of (token after, token after that)
pairs of the `-p` tokens in flag position, in command-line order; the operands
of a `-p` are not read as flags, so the force-UTF-8 flag is set exactly when a
`-utf8` stands in flag position and no token in flag position stopped the
reading. -/
theorem patterns_in_command_order {F : Type} (lib : ddbase F) (cmds : List wstring) (file : F) :
    ∃ st, run lib cmds file = some st ∧
      ∀ q, Event.get_file_type q ∈ st.trace →
        st.s_finders.zip st.s_replaces = spec_pairs (cmds.drop 2) ∧
        st.s_finders = (spec_pairs (cmds.drop 2)).map Prod.fst ∧
        st.s_replaces = (spec_pairs (cmds.drop 2)).map Prod.snd ∧
        st.s_force_utf8 = spec_utf8 (cmds.drop 2) ∧
        spec_stops_early (cmds.drop 2) = false := by
  obtain ⟨st, hrun⟩ := run_total lib cmds file
  refine ⟨st, hrun, fun q hreach => ?_⟩
  obtain ⟨hrf, _, hs⟩ := run_reaches lib cmds file st hrun q hreach
  obtain ⟨_, hflag, hfind, hrepl⟩ := replace_file_globals lib _ st hrf
  have hf : st.s_finders = (spec_pairs (cmds.drop 2)).map Prod.fst := by
    rw [hfind]
    rfl
  have hr : st.s_replaces = (spec_pairs (cmds.drop 2)).map Prod.snd := by
    rw [hrepl]
    rfl
  refine ⟨?_, hf, hr, ?_, hs⟩
  · rw [hf, hr]
    exact (List.zip_of_prod rfl rfl).symm
  · rw [hflag]
    rfl

/-- The witness of C4: `dd.exe a.txt -p -help -utf8 x -p a b`, where the
operands of the first `-p` are the texts `-help` and `-utf8`, and `x` is a
token that is no flag. -/
theorem patterns_in_command_order_witness :
    ∃ st, run (example_lib ddfile_type.utf16le)
        [L "dd.exe", L "a.txt", L "-p", L "-help", L "-utf8", L "x", L "-p", L "a", L "b"]
        ⟨L "xyz", 0⟩ = some st ∧
      Event.get_file_type (L "a.txt") ∈ st.trace ∧
      st.s_finders.zip st.s_replaces = [(L "-help", L "-utf8"), (L "a", L "b")] ∧
      st.s_force_utf8 = false ∧
      (st.s_finders.zip st.s_replaces = spec_pairs
          ([L "dd.exe", L "a.txt", L "-p", L "-help", L "-utf8", L "x", L "-p", L "a", L "b"].drop 2) ∧
        st.s_finders = (spec_pairs
          ([L "dd.exe", L "a.txt", L "-p", L "-help", L "-utf8", L "x", L "-p", L "a", L "b"].drop 2)).map
            Prod.fst ∧
        st.s_replaces = (spec_pairs
          ([L "dd.exe", L "a.txt", L "-p", L "-help", L "-utf8", L "x", L "-p", L "a", L "b"].drop 2)).map
            Prod.snd ∧
        st.s_force_utf8 = spec_utf8
          ([L "dd.exe", L "a.txt", L "-p", L "-help", L "-utf8", L "x", L "-p", L "a", L "b"].drop 2) ∧
        spec_stops_early
          ([L "dd.exe", L "a.txt", L "-p", L "-help", L "-utf8", L "x", L "-p", L "a", L "b"].drop 2)
            = false) := by
  obtain ⟨st, hrun, h⟩ := patterns_in_command_order (example_lib ddfile_type.utf16le)
    [L "dd.exe", L "a.txt", L "-p", L "-help", L "-utf8", L "x", L "-p", L "a", L "b"] ⟨L "xyz", 0⟩
  have hrun2 : run (example_lib ddfile_type.utf16le)
      [L "dd.exe", L "a.txt", L "-p", L "-help", L "-utf8", L "x", L "-p", L "a", L "b"]
      ⟨L "xyz", 0⟩ = some
        { s_src_path := L "a.txt", s_force_utf8 := false,
          s_finders := [L "-help", L "a"], s_replaces := [L "-utf8", L "b"], s_result := 0,
          trace := [Event.get_file_type (L "a.txt"), Event.create_utf8_file (L "a.txt") true,
            Event.read 3 true,
            Event.buff_replace_ex (L "xyz") [utf16le_buff (L "-help"), utf16le_buff (L "a")]
              [utf16le_buff (L "-utf8"), utf16le_buff (L "b")],
            Event.resize 3 true, Event.seek 0 true, Event.write (L "xyz") 3 true, Event.log_green],
          file := ⟨L "xyz", 3⟩,
          finder_buffs := [utf16le_buff (L "-help"), utf16le_buff (L "a")],
          replace_buffs := [utf16le_buff (L "-utf8"), utf16le_buff (L "b")],
          src_buff := L "xyz", new_buff := L "xyz" } := by decide
  rw [hrun2] at hrun
  cases hrun
  exact ⟨_, hrun2, by decide, by decide, rfl, h (L "a.txt") (by decide)⟩

/-! ## An unrecognised file -/

/-- C8: every run ends in a defined state, and when the run has called the
detector and the detector answers `unknown`, the run has printed the error line
and the help text and done nothing else: the file is not opened, read, resized,
sought or written (it is as before), no pattern is transcoded (the buffers are
empty), and `ddmain` returns 1. -/
theorem unknown_type_leaves_file_untouched {F : Type} (lib : ddbase F) (cmds : List wstring)
    (file : F) :
    ∃ st, run lib cmds file = some st ∧
      ∀ q, Event.get_file_type q ∈ st.trace → lib.get_file_type q file = ddfile_type.unknown →
        st.trace = [Event.get_file_type q, Event.log_red q, Event.help] ∧ st.file = file ∧
        st.finder_buffs = [] ∧ st.replace_buffs = [] ∧ st.src_buff = [] ∧ st.new_buff = [] ∧
        st.s_result = 1 ∧ ddmain lib cmds file = some 1 := by
  obtain ⟨st, hrun⟩ := run_total lib cmds file
  refine ⟨st, hrun, fun q hreach hty => ?_⟩
  obtain ⟨hrf, hq, _⟩ := run_reaches lib cmds file st hrun q hreach
  have hu : lib.get_file_type (spec_parsed cmds file).s_src_path (spec_parsed cmds file).file
      = ddfile_type.unknown := by
    rw [← hty, hq]
    rfl
  rw [replace_file_unknown lib _ hu] at hrf
  rw [ddmain, hrun]
  cases hrf
  subst hq
  exact ⟨rfl, rfl, rfl, rfl, rfl, rfl, rfl, rfl⟩

/-- The witness of C8: `dd.exe a.txt -p a b` on a file the detector cannot
classify. -/
theorem unknown_type_leaves_file_untouched_witness :
    ∃ st, run (example_lib ddfile_type.unknown) [L "dd.exe", L "a.txt", L "-p", L "a", L "b"]
        ⟨L "abc", 0⟩ = some st ∧
      Event.get_file_type (L "a.txt") ∈ st.trace ∧
      (example_lib ddfile_type.unknown).get_file_type (L "a.txt") ⟨L "abc", 0⟩
        = ddfile_type.unknown ∧
      st.s_finders = [L "a"] ∧ st.s_replaces = [L "b"] ∧
      (st.trace = [Event.get_file_type (L "a.txt"), Event.log_red (L "a.txt"), Event.help] ∧
        st.file = ⟨L "abc", 0⟩ ∧
        st.finder_buffs = [] ∧ st.replace_buffs = [] ∧ st.src_buff = [] ∧ st.new_buff = [] ∧
        st.s_result = 1 ∧
        ddmain (example_lib ddfile_type.unknown) [L "dd.exe", L "a.txt", L "-p", L "a", L "b"]
          ⟨L "abc", 0⟩ = some 1) := by
  obtain ⟨st, hrun, h⟩ := unknown_type_leaves_file_untouched (example_lib ddfile_type.unknown)
    [L "dd.exe", L "a.txt", L "-p", L "a", L "b"] ⟨L "abc", 0⟩
  have hrun2 : run (example_lib ddfile_type.unknown) [L "dd.exe", L "a.txt", L "-p", L "a", L "b"]
      ⟨L "abc", 0⟩ = some
        { s_src_path := L "a.txt", s_force_utf8 := false,
          s_finders := [L "a"], s_replaces := [L "b"], s_result := 1,
          trace := [Event.get_file_type (L "a.txt"), Event.log_red (L "a.txt"), Event.help],
          file := ⟨L "abc", 0⟩,
          finder_buffs := [], replace_buffs := [], src_buff := [], new_buff := [] } := by decide
  rw [hrun2] at hrun
  cases hrun
  exact ⟨_, hrun2, by decide, rfl, rfl, rfl, h (L "a.txt") (by decide) rfl⟩

/-! ## The caller invariant of the replacer -/

theorem spec_transcode_nil {F : Type} (lib : ddbase F) (type : ddfile_type)
    (h8 : lib.utf16_8 [] = []) (ha : lib.utf16_ansi [] = []) : spec_transcode lib type [] = [] := by
  cases type <;> simp [spec_transcode, h8, ha]

/-- C10: every run ends in a defined state (no access `s_replaces[i]` is out of
range) in which `s_finders` and `s_replaces` have the same length; and when the
run has reached `replace_file` on a file of a known type, `finder_buffs` and
`replace_buffs` have that length too, entry `i` being the transcoding of finder
`i` and of replacement `i` for the resolved type, these are the buffers any
call of `buff_replace_ex` gets, and an empty replacement gives an empty buffer
(for the two library transcoders, provided they map the empty text to no
bytes). -/
theorem buffers_pair_up_with_patterns {F : Type} (lib : ddbase F) (cmds : List wstring)
    (file : F) :
    ∃ st, run lib cmds file = some st ∧ st.s_finders.length = st.s_replaces.length ∧
      ∀ q, Event.get_file_type q ∈ st.trace → lib.get_file_type q file ≠ ddfile_type.unknown →
        (resolve_type (lib.get_file_type q file) st.s_force_utf8 = ddfile_type.utf8bom ∨
          resolve_type (lib.get_file_type q file) st.s_force_utf8 = ddfile_type.ansi ∨
          resolve_type (lib.get_file_type q file) st.s_force_utf8 = ddfile_type.utf16le ∨
          resolve_type (lib.get_file_type q file) st.s_force_utf8 = ddfile_type.utf16be) ∧
        st.finder_buffs = st.s_finders.map
          (spec_transcode lib (resolve_type (lib.get_file_type q file) st.s_force_utf8)) ∧
        st.replace_buffs = st.s_replaces.map
          (spec_transcode lib (resolve_type (lib.get_file_type q file) st.s_force_utf8)) ∧
        st.finder_buffs.length = st.s_finders.length ∧
        st.replace_buffs.length = st.s_finders.length ∧
        (∀ src fb rb, Event.buff_replace_ex src fb rb ∈ st.trace →
          fb = st.finder_buffs ∧ rb = st.replace_buffs) ∧
        (lib.utf16_8 [] = [] → lib.utf16_ansi [] = [] →
          ∀ i : Nat, st.s_replaces[i]? = some [] → st.replace_buffs[i]? = some []) := by
  have hlen : (spec_parsed cmds file).s_finders.length
      = (spec_parsed cmds file).s_replaces.length := by
    simp [spec_parsed]
  have hsome : ∃ st, run lib cmds file = some st ∧ st.s_finders.length = st.s_replaces.length := by
    rw [run_eq]
    by_cases h2 : cmds.length < 2
    · rw [if_pos h2]
      exact ⟨_, rfl, rfl⟩
    · rw [if_neg h2]
      by_cases hs : spec_stops_early (cmds.drop 2) = true
      · rw [if_pos hs]
        exact ⟨_, rfl, hlen⟩
      · rw [if_neg hs]
        by_cases hu : lib.get_file_type (spec_parsed cmds file).s_src_path
            (spec_parsed cmds file).file = ddfile_type.unknown
        · rw [replace_file_unknown lib _ hu]
          exact ⟨_, rfl, hlen⟩
        · rw [replace_file_known lib _ hu hlen]
          refine ⟨_, rfl, ?_⟩
          have hf := write_back_fields lib
            (log (spec_parsed cmds file) (Event.get_file_type (spec_parsed cmds file).s_src_path))
            ((spec_parsed cmds file).s_finders.map (spec_transcode lib (resolve_type
              (lib.get_file_type (spec_parsed cmds file).s_src_path (spec_parsed cmds file).file)
              (spec_parsed cmds file).s_force_utf8)))
            ((spec_parsed cmds file).s_replaces.map (spec_transcode lib (resolve_type
              (lib.get_file_type (spec_parsed cmds file).s_src_path (spec_parsed cmds file).file)
              (spec_parsed cmds file).s_force_utf8)))
          rw [hf.2.2.1, hf.2.2.2.1]
          exact hlen
  obtain ⟨st, hrun, hl⟩ := hsome
  refine ⟨st, hrun, hl, ?_⟩
  intro q hreach hty
  obtain ⟨hrf, hq, _⟩ := run_reaches lib cmds file st hrun q hreach
  have hu : lib.get_file_type (spec_parsed cmds file).s_src_path (spec_parsed cmds file).file
      ≠ ddfile_type.unknown := by
    rw [hq] at hty
    exact hty
  have hg := replace_file_globals lib _ st hrf
  rw [replace_file_known lib _ hu hlen] at hrf
  have hty2 : lib.get_file_type q file
      = lib.get_file_type (spec_parsed cmds file).s_src_path (spec_parsed cmds file).file := by
    rw [hq]
    rfl
  have hf := write_back_fields lib
    (log (spec_parsed cmds file) (Event.get_file_type (spec_parsed cmds file).s_src_path))
    ((spec_parsed cmds file).s_finders.map (spec_transcode lib (resolve_type
      (lib.get_file_type (spec_parsed cmds file).s_src_path (spec_parsed cmds file).file)
      (spec_parsed cmds file).s_force_utf8)))
    ((spec_parsed cmds file).s_replaces.map (spec_transcode lib (resolve_type
      (lib.get_file_type (spec_parsed cmds file).s_src_path (spec_parsed cmds file).file)
      (spec_parsed cmds file).s_force_utf8)))
  have hcall := write_back_replacer_call lib
    (log (spec_parsed cmds file) (Event.get_file_type (spec_parsed cmds file).s_src_path))
    ((spec_parsed cmds file).s_finders.map (spec_transcode lib (resolve_type
      (lib.get_file_type (spec_parsed cmds file).s_src_path (spec_parsed cmds file).file)
      (spec_parsed cmds file).s_force_utf8)))
    ((spec_parsed cmds file).s_replaces.map (spec_transcode lib (resolve_type
      (lib.get_file_type (spec_parsed cmds file).s_src_path (spec_parsed cmds file).file)
      (spec_parsed cmds file).s_force_utf8)))
    (by simp [log, spec_parsed, initial])
  simp only [Option.some.injEq] at hrf
  rw [hrf] at hf hcall
  have hfb : st.finder_buffs = st.s_finders.map
      (spec_transcode lib (resolve_type (lib.get_file_type q file) st.s_force_utf8)) := by
    rw [hf.2.2.2.2.1, hg.2.2.1, hg.2.1, hty2]
  have hrb : st.replace_buffs = st.s_replaces.map
      (spec_transcode lib (resolve_type (lib.get_file_type q file) st.s_force_utf8)) := by
    rw [hf.2.2.2.2.2, hg.2.2.2, hg.2.1, hty2]
  refine ⟨resolve_type_known _ _ hty, hfb, hrb, ?_, ?_, ?_, ?_⟩
  · rw [hfb, List.length_map]
  · rw [hrb, List.length_map, hl]
  · intro src fb rb hmem
    obtain ⟨h1, h2⟩ := hcall src fb rb hmem
    rw [h1, h2, hf.2.2.2.2.1, hf.2.2.2.2.2]
    exact ⟨rfl, rfl⟩
  · intro h8 ha i hi
    rw [hrb, List.getElem?_map, hi, Option.map_some', spec_transcode_nil lib _ h8 ha]

/-- The witness of C10: `dd.exe a.txt -p a ""` (an empty replacement) on a file
detected as `utf16le`. -/
theorem buffers_pair_up_with_patterns_witness :
    ∃ st, run (example_lib ddfile_type.utf16le) [L "dd.exe", L "a.txt", L "-p", L "a", L ""]
        ⟨L "xay", 0⟩ = some st ∧
      Event.get_file_type (L "a.txt") ∈ st.trace ∧
      (example_lib ddfile_type.utf16le).get_file_type (L "a.txt") ⟨L "xay", 0⟩
        ≠ ddfile_type.unknown ∧
      st.s_finders = [L "a"] ∧ st.s_replaces = [[]] ∧
      st.finder_buffs = [[97, 0]] ∧ st.replace_buffs = [[]] ∧
      Event.buff_replace_ex (L "xay") [[97, 0]] [[]] ∈ st.trace ∧
      st.finder_buffs = st.s_finders.map (spec_transcode (example_lib ddfile_type.utf16le)
        (resolve_type ((example_lib ddfile_type.utf16le).get_file_type (L "a.txt") ⟨L "xay", 0⟩)
          st.s_force_utf8)) ∧
      st.replace_buffs = st.s_replaces.map (spec_transcode (example_lib ddfile_type.utf16le)
        (resolve_type ((example_lib ddfile_type.utf16le).get_file_type (L "a.txt") ⟨L "xay", 0⟩)
          st.s_force_utf8)) := by
  obtain ⟨st, hrun, _, h⟩ := buffers_pair_up_with_patterns (example_lib ddfile_type.utf16le)
    [L "dd.exe", L "a.txt", L "-p", L "a", L ""] ⟨L "xay", 0⟩
  have hrun2 : run (example_lib ddfile_type.utf16le)
      [L "dd.exe", L "a.txt", L "-p", L "a", L ""] ⟨L "xay", 0⟩ = some
        { s_src_path := L "a.txt", s_force_utf8 := false,
          s_finders := [L "a"], s_replaces := [[]], s_result := 0,
          trace := [Event.get_file_type (L "a.txt"), Event.create_utf8_file (L "a.txt") true,
            Event.read 3 true, Event.buff_replace_ex (L "xay") [[97, 0]] [[]],
            Event.resize 3 true, Event.seek 0 true, Event.write (L "xay") 3 true, Event.log_green],
          file := ⟨L "xay", 3⟩,
          finder_buffs := [[97, 0]], replace_buffs := [[]],
          src_buff := L "xay", new_buff := L "xay" } := by decide
  rw [hrun2] at hrun
  cases hrun
  have hq : Event.get_file_type (L "a.txt") ∈
      [Event.get_file_type (L "a.txt"), Event.create_utf8_file (L "a.txt") true,
        Event.read 3 true, Event.buff_replace_ex (L "xay") [[97, 0]] [[]],
        Event.resize 3 true, Event.seek 0 true, Event.write (L "xay") 3 true,
        Event.log_green] := by decide
  obtain ⟨_, h1, h2, _⟩ := h (L "a.txt") hq (fun e => ddfile_type.noConfusion e)
  exact ⟨_, hrun2, hq, fun e => ddfile_type.noConfusion e, rfl, rfl, rfl, rfl, by decide, h1, h2⟩

/-! ## The two UTF-16 transcodings in `replace_file` -/

theorem replace_file_of_type {F : Type} (lib : ddbase F) (st : State F) (type : ddfile_type)
    (enc : wstring → ddbuff)
    (hty : lib.get_file_type st.s_src_path st.file = type)
    (hu : type ≠ ddfile_type.unknown) (ha : type ≠ ddfile_type.utf8_or_ansi)
    (hlen : st.s_finders.length = st.s_replaces.length)
    (hb : transcode_branch lib type st.s_finders st.s_replaces
      = transcode_patterns enc st.s_finders st.s_replaces) :
    ∃ st1, replace_file lib st = some st1 ∧ st1.finder_buffs = st.s_finders.map enc ∧
      st1.replace_buffs = st.s_replaces.map enc := by
  have e : resolve_type type st.s_force_utf8 = type := by simp [resolve_type, ha]
  rw [replace_file_not_unknown lib st (by rw [hty]; exact hu), hty, e, hb,
    transcode_patterns_eq enc _ _ hlen]
  have hf := write_back_fields lib (log st (Event.get_file_type st.s_src_path))
    (st.s_finders.map enc) (st.s_replaces.map enc)
  exact ⟨_, rfl, hf.2.2.2.2.1, hf.2.2.2.2.2⟩

/-- C1: on a file detected as `utf16le`, `replace_file` transcodes every finder
and every replacement (texts of 16-bit code units, surrogates included) to two
bytes per code unit, the low byte `c % 256` then the high byte `c / 256`, in
order: the buffer has length `2 * n` and reading it back as little-endian
16-bit code units gives the text again. -/
theorem utf16le_transcoding {F : Type} (lib : ddbase F) (st : State F)
    (hty : lib.get_file_type st.s_src_path st.file = ddfile_type.utf16le)
    (hlen : st.s_finders.length = st.s_replaces.length)
    (hunits : ∀ text ∈ st.s_finders ++ st.s_replaces, ∀ c ∈ text, c < 65536) :
    ∃ st1, replace_file lib st = some st1 ∧
      st1.finder_buffs = st.s_finders.map utf16le_buff ∧
      st1.replace_buffs = st.s_replaces.map utf16le_buff ∧
      ∀ text ∈ st.s_finders ++ st.s_replaces,
        utf16le_buff text = text.flatMap (fun c => [c % 256, c / 256]) ∧
        (utf16le_buff text).length = 2 * text.length ∧
        spec_read_utf16le (utf16le_buff text) = text := by
  obtain ⟨st1, h1, h2, h3⟩ := replace_file_of_type lib st ddfile_type.utf16le utf16le_buff hty
    (by decide) (by decide) hlen (by simp [transcode_branch])
  exact ⟨st1, h1, h2, h3, fun text ht =>
    ⟨utf16le_buff_bytes text (hunits text ht), utf16le_buff_length text,
      spec_read_utf16le_buff text (hunits text ht)⟩⟩

/-- The witness of C1: the finder is a surrogate pair followed by `A`, the
replacement an unpaired low surrogate. -/
theorem utf16le_transcoding_witness :
    (example_lib ddfile_type.utf16le).get_file_type
        (example_state false [[0xD83D, 0xDE00, 0x41]] [[0xDC00]] ⟨[0xFF, 0xFE], 0⟩).s_src_path
        (example_state false [[0xD83D, 0xDE00, 0x41]] [[0xDC00]] ⟨[0xFF, 0xFE], 0⟩).file
      = ddfile_type.utf16le ∧
    (∀ text ∈ [[0xD83D, 0xDE00, 0x41]] ++ [[0xDC00]], ∀ c ∈ text, c < 65536) ∧
    utf16le_buff [0xD83D, 0xDE00, 0x41] = [0x3D, 0xD8, 0x00, 0xDE, 0x41, 0x00] ∧
    utf16le_buff [0xDC00] = [0x00, 0xDC] ∧
    ∃ st1, replace_file (example_lib ddfile_type.utf16le)
        (example_state false [[0xD83D, 0xDE00, 0x41]] [[0xDC00]] ⟨[0xFF, 0xFE], 0⟩) = some st1 ∧
      st1.finder_buffs = [[0xD83D, 0xDE00, 0x41]].map utf16le_buff ∧
      st1.replace_buffs = [[0xDC00]].map utf16le_buff ∧
      ∀ text ∈ [[0xD83D, 0xDE00, 0x41]] ++ [[0xDC00]],
        utf16le_buff text = text.flatMap (fun c => [c % 256, c / 256]) ∧
        (utf16le_buff text).length = 2 * text.length ∧
        spec_read_utf16le (utf16le_buff text) = text :=
  ⟨rfl, by decide, by decide, by decide,
    utf16le_transcoding (example_lib ddfile_type.utf16le)
      (example_state false [[0xD83D, 0xDE00, 0x41]] [[0xDC00]] ⟨[0xFF, 0xFE], 0⟩) rfl rfl
      (by decide)⟩

/-- C2: on a file detected as `utf16be`, `replace_file` transcodes every finder
and every replacement to the high byte `c / 256` then the low byte `c % 256` of
each code unit, and that buffer is the `utf16le` transcoding of the same text
with the two bytes of every pair swapped: both have length `2 * n`, and bytes
`2 * j` and `2 * j + 1` of the one are bytes `2 * j + 1` and `2 * j` of the
other. -/
theorem utf16be_transcoding {F : Type} (lib : ddbase F) (st : State F)
    (hty : lib.get_file_type st.s_src_path st.file = ddfile_type.utf16be)
    (hlen : st.s_finders.length = st.s_replaces.length)
    (hunits : ∀ text ∈ st.s_finders ++ st.s_replaces, ∀ c ∈ text, c < 65536) :
    ∃ st1, replace_file lib st = some st1 ∧
      st1.finder_buffs = st.s_finders.map utf16be_buff ∧
      st1.replace_buffs = st.s_replaces.map utf16be_buff ∧
      ∀ text ∈ st.s_finders ++ st.s_replaces,
        utf16be_buff text = text.flatMap (fun c => [c / 256, c % 256]) ∧
        utf16be_buff text = spec_swap_pairs (utf16le_buff text) ∧
        (utf16be_buff text).length = 2 * text.length ∧
        (utf16le_buff text).length = 2 * text.length ∧
        ∀ j, j < text.length →
          (utf16be_buff text)[2 * j]? = (utf16le_buff text)[2 * j + 1]? ∧
          (utf16be_buff text)[2 * j + 1]? = (utf16le_buff text)[2 * j]? ∧
          (utf16be_buff text)[2 * j]? = text[j]?.map (fun c => c / 256) ∧
          (utf16be_buff text)[2 * j + 1]? = text[j]?.map (fun c => c % 256) := by
  obtain ⟨st1, h1, h2, h3⟩ := replace_file_of_type lib st ddfile_type.utf16be utf16be_buff hty
    (by decide) (by decide) hlen (by simp [transcode_branch])
  refine ⟨st1, h1, h2, h3, fun text ht =>
    ⟨utf16be_buff_bytes text (hunits text ht), utf16be_eq_swap_utf16le text,
      utf16be_buff_length text, utf16le_buff_length text, fun j hj => ?_⟩⟩
  obtain ⟨a1, a2, a3, a4⟩ := utf16_bytes_at text j
  have hc : text[j] < 65536 := hunits text ht _ (List.getElem_mem hj)
  refine ⟨by rw [a3, a2], by rw [a4, a1], ?_, ?_⟩
  · rw [a3, List.getElem?_eq_getElem hj, Option.map_some', Option.map_some', u8_high _ hc]
  · rw [a4, List.getElem?_eq_getElem hj, Option.map_some', Option.map_some', u8_low]

/-- The witness of C2: the same texts as for C1, on a file detected as `utf16be`. -/
theorem utf16be_transcoding_witness :
    (example_lib ddfile_type.utf16be).get_file_type
        (example_state false [[0xD83D, 0xDE00, 0x41]] [[0xDC00]] ⟨[0xFE, 0xFF], 0⟩).s_src_path
        (example_state false [[0xD83D, 0xDE00, 0x41]] [[0xDC00]] ⟨[0xFE, 0xFF], 0⟩).file
      = ddfile_type.utf16be ∧
    (∀ text ∈ [[0xD83D, 0xDE00, 0x41]] ++ [[0xDC00]], ∀ c ∈ text, c < 65536) ∧
    utf16be_buff [0xD83D, 0xDE00, 0x41] = [0xD8, 0x3D, 0xDE, 0x00, 0x00, 0x41] ∧
    utf16be_buff [0xDC00] = [0xDC, 0x00] ∧
    ∃ st1, replace_file (example_lib ddfile_type.utf16be)
        (example_state false [[0xD83D, 0xDE00, 0x41]] [[0xDC00]] ⟨[0xFE, 0xFF], 0⟩) = some st1 ∧
      st1.finder_buffs = [[0xD83D, 0xDE00, 0x41]].map utf16be_buff ∧
      st1.replace_buffs = [[0xDC00]].map utf16be_buff ∧
      ∀ text ∈ [[0xD83D, 0xDE00, 0x41]] ++ [[0xDC00]],
        utf16be_buff text = text.flatMap (fun c => [c / 256, c % 256]) ∧
        utf16be_buff text = spec_swap_pairs (utf16le_buff text) ∧
        (utf16be_buff text).length = 2 * text.length ∧
        (utf16le_buff text).length = 2 * text.length ∧
        ∀ j, j < text.length →
          (utf16be_buff text)[2 * j]? = (utf16le_buff text)[2 * j + 1]? ∧
          (utf16be_buff text)[2 * j + 1]? = (utf16le_buff text)[2 * j]? ∧
          (utf16be_buff text)[2 * j]? = text[j]?.map (fun c => c / 256) ∧
          (utf16be_buff text)[2 * j + 1]? = text[j]?.map (fun c => c % 256) :=
  ⟨rfl, by decide, by decide, by decide,
    utf16be_transcoding (example_lib ddfile_type.utf16be)
      (example_state false [[0xD83D, 0xDE00, 0x41]] [[0xDC00]] ⟨[0xFE, 0xFF], 0⟩) rfl rfl
      (by decide)⟩

/-! ## The replacer of the specification -/

theorem spec_first_match_some (src : ddbuff) (finders replaces : List ddbuff)
    (finder replace : ddbuff)
    (h : spec_first_match src finders replaces = some (finder, replace)) :
    finder ≠ [] ∧ finder <+: src := by
  induction finders generalizing replaces with
  | nil => simp [spec_first_match] at h
  | cons f fs ih =>
    cases replaces with
    | nil => simp [spec_first_match] at h
    | cons r rs =>
      rw [spec_first_match] at h
      by_cases hm : f ≠ [] ∧ f <+: src
      · rw [if_pos hm] at h
        simp only [Option.some.injEq, Prod.mk.injEq] at h
        rw [← h.1]
        exact hm
      · rw [if_neg hm] at h
        exact ih rs h

theorem spec_first_match_at (src : ddbuff) (i : Nat) (finders replaces : List ddbuff)
    (finder replace : ddbuff)
    (hf : finders[i]? = some finder) (hr : replaces[i]? = some replace)
    (hne : finder ≠ []) (hp : finder <+: src)
    (hmin : ∀ j, j < i → ∀ g, finders[j]? = some g → g = [] ∨ ¬ g <+: src) :
    spec_first_match src finders replaces = some (finder, replace) := by
  induction i generalizing finders replaces with
  | zero =>
    cases finders with
    | nil => simp at hf
    | cons f fs =>
      cases replaces with
      | nil => simp at hr
      | cons r rs =>
        simp only [List.getElem?_cons_zero, Option.some.injEq] at hf hr
        subst hf hr
        rw [spec_first_match, if_pos ⟨hne, hp⟩]
  | succ k ih =>
    cases finders with
    | nil => simp at hf
    | cons f fs =>
      cases replaces with
      | nil => simp at hr
      | cons r rs =>
        simp only [List.getElem?_cons_succ] at hf hr
        have h0 : ¬ (f ≠ [] ∧ f <+: src) := by
          rintro ⟨h1, h2⟩
          rcases hmin 0 (Nat.succ_pos k) f (by simp) with h | h
          · exact h1 h
          · exact h h2
        rw [spec_first_match, if_neg h0]
        exact ih fs rs hf hr (fun j hj g hg => hmin (j + 1) (by omega) g (by simpa using hg))

theorem spec_replace_from_fuel (finders replaces : List ddbuff) (fuel1 fuel2 : Nat) (src : ddbuff)
    (h1 : src.length ≤ fuel1) (h2 : src.length ≤ fuel2) :
    spec_replace_from finders replaces fuel1 src = spec_replace_from finders replaces fuel2 src := by
  induction fuel1 generalizing fuel2 src with
  | zero =>
    have e : src = [] := List.length_eq_zero.mp (by omega)
    subst e
    cases fuel2 <;> simp [spec_replace_from]
  | succ k ih =>
    cases src with
    | nil => cases fuel2 <;> simp [spec_replace_from]
    | cons b rest =>
      cases fuel2 with
      | zero => simp at h2
      | succ m =>
        simp only [List.length_cons] at h1 h2
        rw [spec_replace_from, spec_replace_from]
        cases hm : spec_first_match (b :: rest) finders replaces with
        | none =>
          simp only
          rw [ih m rest (by omega) (by omega)]
        | some p =>
          obtain ⟨f, r⟩ := p
          have hne := (spec_first_match_some _ _ _ _ _ hm).1
          have hpos : 0 < f.length := List.length_pos.mpr hne
          have hd : ((b :: rest).drop f.length).length ≤ rest.length := by
            rw [List.length_drop, List.length_cons]
            omega
          simp only
          rw [ih m _ (by omega) (by omega)]

theorem spec_buff_replace_ex_match (src : ddbuff) (finders replaces : List ddbuff) (i : Nat)
    (finder replace : ddbuff)
    (hf : finders[i]? = some finder) (hr : replaces[i]? = some replace)
    (hne : finder ≠ []) (hp : finder <+: src)
    (hmin : ∀ j, j < i → ∀ g, finders[j]? = some g → g = [] ∨ ¬ g <+: src) :
    spec_buff_replace_ex src finders replaces
      = replace ++ spec_buff_replace_ex (src.drop finder.length) finders replaces := by
  have hm := spec_first_match_at src i finders replaces finder replace hf hr hne hp hmin
  cases src with
  | nil =>
    exfalso
    exact hne (List.prefix_nil.mp hp)
  | cons b rest =>
    have hpos : 0 < finder.length := List.length_pos.mpr hne
    have hd : ((b :: rest).drop finder.length).length ≤ rest.length := by
      rw [List.length_drop, List.length_cons]
      omega
    rw [spec_buff_replace_ex, List.length_cons, spec_replace_from, hm]
    simp only
    rw [spec_buff_replace_ex, spec_replace_from_fuel finders replaces rest.length _ _ hd (le_refl _)]

theorem spec_first_match_none (src : ddbuff) (finders replaces : List ddbuff)
    (hno : ∀ (j : Nat) (g : ddbuff), finders[j]? = some g → g = [] ∨ ¬ g <+: src) :
    spec_first_match src finders replaces = none := by
  induction finders generalizing replaces with
  | nil => simp [spec_first_match]
  | cons f fs ih =>
    cases replaces with
    | nil => simp [spec_first_match]
    | cons r rs =>
      have h0 : ¬ (f ≠ [] ∧ f <+: src) := by
        rintro ⟨h1, h2⟩
        rcases hno 0 f (by simp) with h | h
        · exact h1 h
        · exact h h2
      rw [spec_first_match, if_neg h0]
      exact ih rs (fun j g hg => hno (j + 1) g (by simpa using hg))

theorem spec_first_match_index (src : ddbuff) (finders replaces : List ddbuff)
    (finder replace : ddbuff)
    (h : spec_first_match src finders replaces = some (finder, replace)) :
    ∃ i, finders[i]? = some finder ∧ replaces[i]? = some replace ∧ finder ≠ [] ∧
      finder <+: src ∧
      ∀ (j : Nat), j < i → ∀ (g : ddbuff), finders[j]? = some g → g = [] ∨ ¬ g <+: src := by
  induction finders generalizing replaces with
  | nil => simp [spec_first_match] at h
  | cons f fs ih =>
    cases replaces with
    | nil => simp [spec_first_match] at h
    | cons r rs =>
      rw [spec_first_match] at h
      by_cases hm : f ≠ [] ∧ f <+: src
      · rw [if_pos hm] at h
        simp only [Option.some.injEq, Prod.mk.injEq] at h
        obtain ⟨rfl, rfl⟩ := h
        exact ⟨0, by simp, by simp, hm.1, hm.2, fun j hj => absurd hj (Nat.not_lt_zero j)⟩
      · rw [if_neg hm] at h
        obtain ⟨i, h1, h2, h3, h4, h5⟩ := ih rs h
        refine ⟨i + 1, by simpa using h1, by simpa using h2, h3, h4, ?_⟩
        intro j hj g hg
        cases j with
        | zero =>
          simp only [List.getElem?_cons_zero, Option.some.injEq] at hg
          subst hg
          by_cases hg0 : f = []
          · exact Or.inl hg0
          · exact Or.inr (fun hp => hm ⟨hg0, hp⟩)
        | succ k => exact h5 k (by omega) g (by simpa using hg)

theorem spec_first_match_none_all (src : ddbuff) (finders replaces : List ddbuff)
    (hlen : finders.length = replaces.length)
    (h : spec_first_match src finders replaces = none) :
    ∀ (j : Nat) (g : ddbuff), finders[j]? = some g → g = [] ∨ ¬ g <+: src := by
  induction finders generalizing replaces with
  | nil => intro j g hg; simp at hg
  | cons f fs ih =>
    cases replaces with
    | nil => simp at hlen
    | cons r rs =>
      rw [spec_first_match] at h
      by_cases hm : f ≠ [] ∧ f <+: src
      · rw [if_pos hm] at h
        simp at h
      · rw [if_neg hm] at h
        intro j g hg
        cases j with
        | zero =>
          simp only [List.getElem?_cons_zero, Option.some.injEq] at hg
          subst hg
          by_cases hg0 : f = []
          · exact Or.inl hg0
          · exact Or.inr (fun hp => hm ⟨hg0, hp⟩)
        | succ k =>
          exact ih rs (by simpa using hlen) h k g (by simpa using hg)

theorem spec_buff_replace_ex_copy (b : Nat) (rest : ddbuff) (finders replaces : List ddbuff)
    (hno : ∀ (j : Nat) (g : ddbuff), finders[j]? = some g → g = [] ∨ ¬ g <+: b :: rest) :
    spec_buff_replace_ex (b :: rest) finders replaces
      = b :: spec_buff_replace_ex rest finders replaces := by
  rw [spec_buff_replace_ex, List.length_cons, spec_replace_from,
    spec_first_match_none _ _ _ hno]
  rfl

theorem spec_buff_replace_ex_unique (finders replaces : List ddbuff)
    (hlen : finders.length = replaces.length) (pass : ddbuff → ddbuff)
    (hnil : pass [] = [])
    (hmatch : ∀ (src : ddbuff) (i : Nat) (finder replace : ddbuff),
      finders[i]? = some finder → replaces[i]? = some replace → finder ≠ [] → finder <+: src →
      (∀ j, j < i → ∀ g, finders[j]? = some g → g = [] ∨ ¬ g <+: src) →
      pass src = replace ++ pass (src.drop finder.length))
    (hcopy : ∀ (b : Nat) (rest : ddbuff),
      (∀ (j : Nat) (g : ddbuff), finders[j]? = some g → g = [] ∨ ¬ g <+: b :: rest) →
      pass (b :: rest) = b :: pass rest)
    (n : Nat) (src : ddbuff) (hn : src.length ≤ n) :
    pass src = spec_buff_replace_ex src finders replaces := by
  induction n generalizing src with
  | zero =>
    have e : src = [] := List.length_eq_zero.mp (by omega)
    subst e
    rw [hnil]
    rfl
  | succ k ih =>
    cases src with
    | nil =>
      rw [hnil]
      rfl
    | cons b rest =>
      simp only [List.length_cons] at hn
      cases hm : spec_first_match (b :: rest) finders replaces with
      | none =>
        have hno := spec_first_match_none_all _ _ _ hlen hm
        rw [hcopy b rest hno, spec_buff_replace_ex_copy b rest finders replaces hno,
          ih rest (by omega)]
      | some p =>
        obtain ⟨f, r⟩ := p
        obtain ⟨i, h1, h2, h3, h4, h5⟩ := spec_first_match_index _ _ _ _ _ hm
        have hpos : 0 < f.length := List.length_pos.mpr h3
        have hd : ((b :: rest).drop f.length).length ≤ k := by
          rw [List.length_drop, List.length_cons]
          omega
        rw [hmatch _ i f r h1 h2 h3 h4 h5,
          spec_buff_replace_ex_match _ finders replaces i f r h1 h2 h3 h4 h5, ih _ hd]

/-- C5: the replacer of the specification gives precedence by index, not by
length, at each cursor position. Whatever is left of the source at the cursor:
when nothing is left the pass ends; when finder `i` matches there (it is not
empty and the bytes from the cursor on begin with it) and no finder of a lower
index does, replacement `i` is appended and the pass goes on after that finder,
whatever the finders of a higher index are; when no finder matches there, the
byte at the cursor is copied and the pass goes on at the next byte. For
pattern lists of equal length these three steps decide the output: any pass
that obeys them is the replacer. -/
theorem first_matching_by_index (finders replaces : List ddbuff) :
    spec_buff_replace_ex [] finders replaces = [] ∧
    (∀ (src : ddbuff) (i : Nat) (finder replace : ddbuff),
      finders[i]? = some finder → replaces[i]? = some replace → finder ≠ [] → finder <+: src →
      (∀ j, j < i → ∀ g, finders[j]? = some g → g = [] ∨ ¬ g <+: src) →
      spec_buff_replace_ex src finders replaces
        = replace ++ spec_buff_replace_ex (src.drop finder.length) finders replaces) ∧
    (∀ (b : Nat) (rest : ddbuff),
      (∀ (j : Nat) (g : ddbuff), finders[j]? = some g → g = [] ∨ ¬ g <+: b :: rest) →
      spec_buff_replace_ex (b :: rest) finders replaces
        = b :: spec_buff_replace_ex rest finders replaces) ∧
    (finders.length = replaces.length →
      ∀ pass : ddbuff → ddbuff, pass [] = [] →
        (∀ (src : ddbuff) (i : Nat) (finder replace : ddbuff),
          finders[i]? = some finder → replaces[i]? = some replace → finder ≠ [] →
          finder <+: src →
          (∀ j, j < i → ∀ g, finders[j]? = some g → g = [] ∨ ¬ g <+: src) →
          pass src = replace ++ pass (src.drop finder.length)) →
        (∀ (b : Nat) (rest : ddbuff),
          (∀ (j : Nat) (g : ddbuff), finders[j]? = some g → g = [] ∨ ¬ g <+: b :: rest) →
          pass (b :: rest) = b :: pass rest) →
        ∀ src, pass src = spec_buff_replace_ex src finders replaces) :=
  ⟨rfl,
    fun src i finder replace hf hr hne hp hmin =>
      spec_buff_replace_ex_match src finders replaces i finder replace hf hr hne hp hmin,
    fun b rest hno => spec_buff_replace_ex_copy b rest finders replaces hno,
    fun hlen pass hnil hmatch hcopy src =>
      spec_buff_replace_ex_unique finders replaces hlen pass hnil hmatch hcopy src.length src
        (le_refl _)⟩

/-- The witness of C5, on the source `"zab"` with finders `["x", "a", "ab"]`
and replacements `["W", "Y", "X"]`: at `z` no finder matches and the byte is
copied; at `a` finder 0 does not match, finder 1 (`"a"`) does and wins over the
longer finder 2 (`"ab"`); so the output is `"zYb"`, not `"zX"`. With it, the
example of the specification (finders `["ab", "a"]`, replacements `["X", "Y"]`,
source `"ab"`, output `"X"`), the same with the finders in the other order
(output `"Yb"`), and the run of the program on that example. -/
theorem first_matching_by_index_witness :
    spec_buff_replace_ex (L "zab") [L "x", L "a", L "ab"] [L "W", L "Y", L "X"]
      = 122 :: spec_buff_replace_ex (L "ab") [L "x", L "a", L "ab"] [L "W", L "Y", L "X"] ∧
    spec_buff_replace_ex (L "ab") [L "x", L "a", L "ab"] [L "W", L "Y", L "X"]
      = L "Y" ++ spec_buff_replace_ex ((L "ab").drop (L "a").length)
          [L "x", L "a", L "ab"] [L "W", L "Y", L "X"] ∧
    spec_buff_replace_ex (L "zab") [L "x", L "a", L "ab"] [L "W", L "Y", L "X"] = L "zYb" ∧
    spec_buff_replace_ex (L "zab") [L "a", L "ab"] [L "Y", L "X"] = L "zYb" ∧
    spec_buff_replace_ex (L "ab") [L "ab", L "a"] [L "X", L "Y"] = L "X" ∧
    spec_buff_replace_ex (L "ab") [L "a", L "ab"] [L "Y", L "X"] = L "Yb" ∧
    (run (example_lib ddfile_type.utf8_or_ansi)
        [L "dd.exe", L "a.txt", L "-p", L "ab", L "X", L "-p", L "a", L "Y"] ⟨L "ab", 0⟩).map
      (fun st => st.file.content) = some (L "X") := by
  obtain ⟨_, hmatch, hcopy, _⟩ :=
    first_matching_by_index [L "x", L "a", L "ab"] [L "W", L "Y", L "X"]
  refine ⟨hcopy 122 (L "ab") ?_, hmatch (L "ab") 1 (L "a") (L "Y") rfl rfl (by decide)
    (by decide) ?_, by decide, by decide, by decide, by decide, by decide⟩
  · intro j g hg
    have hj : j < 3 := by
      by_contra hc
      rw [List.getElem?_eq_none (by simpa using hc)] at hg
      exact Option.noConfusion hg
    interval_cases j <;> simp only [List.getElem?_cons_zero, List.getElem?_cons_succ,
      Option.some.injEq] at hg <;> subst hg <;> right <;> decide
  · intro j hj g hg
    have hj0 : j = 0 := by omega
    subst hj0
    simp only [List.getElem?_cons_zero, Option.some.injEq] at hg
    subst hg
    right
    decide

/-! ## Persistence over the abstract file -/

theorem s32_of_lt (n : Nat) (h : n < 2 ^ 31) : s32 n = n := by
  have e : n % 2 ^ 32 = n := Nat.mod_eq_of_lt (by omega)
  rw [s32, e, if_pos h]
  rfl

theorem s32_wrap (n : Nat) : s32 n = ((n + 2 ^ 31) % 2 ^ 32 : Nat) - (2 ^ 31 : Int) := by
  unfold s32
  split
  · rw [Int.ofNat_eq_coe]
    omega
  · rw [Int.negSucc_eq]
    omega

theorem write_back_opened {F : Type} (lib : ddbase F) (st : State F) (fb rb : List ddbuff)
    (f : F) (hc : lib.create_utf8_file st.s_src_path st.file = some f) :
    (write_back lib st fb rb).s_result = 0 ∧
    (write_back lib st fb rb).src_buff
      = (lib.read f (s32 (lib.file_size f))).2.1
        ++ (List.replicate (lib.file_size f) 0).drop (lib.read f (s32 (lib.file_size f))).2.1.length ∧
    (write_back lib st fb rb).new_buff
      = lib.buff_replace_ex (write_back lib st fb rb).src_buff fb rb ∧
    (write_back lib st fb rb).file
      = (lib.write (lib.seek (lib.resize (lib.read f (s32 (lib.file_size f))).1
            (write_back lib st fb rb).new_buff.length).1 0).1
          (write_back lib st fb rb).new_buff
          (s32 (write_back lib st fb rb).new_buff.length)).1 := by
  simp only [write_back, hc, log, and_self]

theorem mem_write_back (type : ddfile_type) (enc8 enca : wstring → ddbuff)
    (replacer : ddbuff → List ddbuff → List ddbuff → ddbuff) (st : State MemFile)
    (fb rb : List ddbuff) :
    (write_back (mem_lib type enc8 enca replacer) st fb rb).s_result = 0 ∧
    (write_back (mem_lib type enc8 enca replacer) st fb rb).src_buff
      = st.file.content.take (s32 st.file.content.length).toNat
        ++ (List.replicate st.file.content.length 0).drop
          (st.file.content.take (s32 st.file.content.length).toNat).length ∧
    (write_back (mem_lib type enc8 enca replacer) st fb rb).new_buff
      = replacer (write_back (mem_lib type enc8 enca replacer) st fb rb).src_buff fb rb ∧
    (write_back (mem_lib type enc8 enca replacer) st fb rb).file.content
      = (write_back (mem_lib type enc8 enca replacer) st fb rb).new_buff.take
          (s32 (write_back (mem_lib type enc8 enca replacer) st fb rb).new_buff.length).toNat
        ++ (st.file.content.take
              (write_back (mem_lib type enc8 enca replacer) st fb rb).new_buff.length
            ++ List.replicate
              ((write_back (mem_lib type enc8 enca replacer) st fb rb).new_buff.length
                - st.file.content.length) 0).drop
          ((write_back (mem_lib type enc8 enca replacer) st fb rb).new_buff.take
            (s32 (write_back (mem_lib type enc8 enca replacer) st fb rb).new_buff.length).toNat).length := by
  obtain ⟨h0, hsrc, hnew, hfile⟩ := write_back_opened (mem_lib type enc8 enca replacer) st fb rb
    { st.file with pos := 0 } rfl
  refine ⟨h0, ?_, hnew, ?_⟩
  · rw [hsrc]
    simp only [mem_lib, mem_read, List.drop_zero]
  · rw [hfile]
    generalize (write_back (mem_lib type enc8 enca replacer) st fb rb).new_buff = nb
    simp only [mem_lib]
    simp only [mem_read]
    simp only [mem_resize]
    simp only [mem_seek]
    simp only [mem_write, List.take_zero, Nat.zero_sub, List.replicate_zero, List.nil_append,
      Nat.zero_add, List.append_nil]

/-- C6, as amended: over the abstract file, on a file of a known type,
`replace_file` leaves the file with exactly the bytes of `new_buff`, the output
of the replacer on the bytes read, whether that is shorter than, as long as or
longer than the original content, provided `new_buff` has fewer than `2 ^ 31`
bytes (its length reaches `write` as a signed 32-bit integer); the bytes read
are the whole original content when that has fewer than `2 ^ 31` bytes, and
`s_result` is 0. -/
theorem persistence_below_s32 (type : ddfile_type) (enc8 enca : wstring → ddbuff)
    (replacer : ddbuff → List ddbuff → List ddbuff → ddbuff) (st : State MemFile)
    (hty : type ≠ ddfile_type.unknown) (hlen : st.s_finders.length = st.s_replaces.length) :
    ∃ st1, replace_file (mem_lib type enc8 enca replacer) st = some st1 ∧
      st1.new_buff = replacer st1.src_buff st1.finder_buffs st1.replace_buffs ∧
      (st.file.content.length < 2 ^ 31 → st1.src_buff = st.file.content) ∧
      (st1.new_buff.length < 2 ^ 31 →
        st1.file.content = st1.new_buff ∧ st1.file.content.length = st1.new_buff.length) ∧
      st1.s_result = 0 := by
  rw [replace_file_known (mem_lib type enc8 enca replacer) st hty hlen]
  refine ⟨_, rfl, ?_⟩
  generalize hfb : st.s_finders.map (spec_transcode (mem_lib type enc8 enca replacer)
    (resolve_type ((mem_lib type enc8 enca replacer).get_file_type st.s_src_path st.file)
      st.s_force_utf8)) = fb
  generalize hrb : st.s_replaces.map (spec_transcode (mem_lib type enc8 enca replacer)
    (resolve_type ((mem_lib type enc8 enca replacer).get_file_type st.s_src_path st.file)
      st.s_force_utf8)) = rb
  obtain ⟨h0, hsrc, hnew, hfile⟩ := mem_write_back type enc8 enca replacer
    (log st (Event.get_file_type st.s_src_path)) fb rb
  have hf := write_back_fields (mem_lib type enc8 enca replacer)
    (log st (Event.get_file_type st.s_src_path)) fb rb
  refine ⟨?_, ?_, ?_, h0⟩
  · rw [hf.2.2.2.2.1, hf.2.2.2.2.2]
    exact hnew
  · intro hsmall
    rw [hsrc]
    simp only [log, s32_of_lt _ hsmall, Int.toNat_ofNat, List.take_length]
    rw [List.drop_eq_nil_of_le (by rw [List.length_replicate]), List.append_nil]
  · intro hsmall
    have hcontent : (write_back (mem_lib type enc8 enca replacer)
        (log st (Event.get_file_type st.s_src_path)) fb rb).file.content
        = (write_back (mem_lib type enc8 enca replacer)
            (log st (Event.get_file_type st.s_src_path)) fb rb).new_buff := by
      rw [hfile, s32_of_lt _ hsmall, Int.toNat_ofNat, List.take_length]
      rw [List.drop_eq_nil_of_le, List.append_nil]
      simp only [List.length_append, List.length_take, List.length_replicate]
      omega
    exact ⟨hcontent, by rw [hcontent]⟩

/-- The witness of C6 as amended, the end-to-end scenario of the
specification: `dd.exe a.txt -p world there` on a file of content
`hello world`, no byte-order mark, flag unset. -/
theorem persistence_below_s32_witness :
    ddfile_type.utf8_or_ansi ≠ ddfile_type.unknown ∧
    run (example_lib ddfile_type.utf8_or_ansi)
        [L "dd.exe", L "a.txt", L "-p", L "world", L "there"] ⟨L "hello world", 0⟩
      = replace_file (example_lib ddfile_type.utf8_or_ansi)
          (example_state false [L "world"] [L "there"] ⟨L "hello world", 0⟩) ∧
    (run (example_lib ddfile_type.utf8_or_ansi)
        [L "dd.exe", L "a.txt", L "-p", L "world", L "there"] ⟨L "hello world", 0⟩).map
      (fun st => (st.file.content, st.s_result)) = some (L "hello there", 0) ∧
    ∃ st1, replace_file (mem_lib ddfile_type.utf8_or_ansi ascii_bytes ascii_bytes
          spec_buff_replace_ex)
        (example_state false [L "world"] [L "there"] ⟨L "hello world", 0⟩) = some st1 ∧
      st1.new_buff = spec_buff_replace_ex st1.src_buff st1.finder_buffs st1.replace_buffs ∧
      ((example_state false [L "world"] [L "there"] ⟨L "hello world", 0⟩).file.content.length
          < 2 ^ 31 →
        st1.src_buff
          = (example_state false [L "world"] [L "there"] ⟨L "hello world", 0⟩).file.content) ∧
      (st1.new_buff.length < 2 ^ 31 →
        st1.file.content = st1.new_buff ∧ st1.file.content.length = st1.new_buff.length) ∧
      st1.s_result = 0 :=
  ⟨by decide, by decide, by decide,
    persistence_below_s32 ddfile_type.utf8_or_ansi ascii_bytes ascii_bytes spec_buff_replace_ex
      (example_state false [L "world"] [L "there"] ⟨L "hello world", 0⟩) (by decide) rfl⟩

theorem s32_wraps : s32 (2 ^ 32 + 1) = 1 := by
  unfold s32
  norm_num

theorem mem_write_back_wrapped (type : ddfile_type) (enc8 enca : wstring → ddbuff)
    (st : State MemFile) (fb rb : List ddbuff) (size m : Nat) (hsize : size = m + 1)
    (hm : 1 ≤ m) (hs : s32 size = 1) (hempty : st.file.content = []) :
    (write_back (mem_lib type enc8 enca (fun _ _ _ => List.replicate size 7)) st fb rb).new_buff
      = List.replicate size 7 ∧
    (write_back (mem_lib type enc8 enca (fun _ _ _ => List.replicate size 7)) st fb rb).file.content
      = 7 :: List.replicate m 0 ∧
    (write_back (mem_lib type enc8 enca (fun _ _ _ => List.replicate size 7)) st fb rb).file.content
      ≠ (write_back (mem_lib type enc8 enca (fun _ _ _ => List.replicate size 7)) st fb rb).new_buff := by
  obtain ⟨n, rfl⟩ : ∃ n, m = n + 1 := ⟨m - 1, by omega⟩
  subst hsize
  obtain ⟨_, _, hnew, hfile⟩ := mem_write_back type enc8 enca
    (fun _ _ _ => List.replicate (n + 1 + 1) 7) st fb rb
  have hc : (write_back (mem_lib type enc8 enca (fun _ _ _ => List.replicate (n + 1 + 1) 7))
      st fb rb).file.content = 7 :: List.replicate (n + 1) 0 := by
    rw [hfile, hnew, hempty]
    simp only [List.length_replicate, hs]
    simp [List.replicate_succ]
  refine ⟨hnew, hc, ?_⟩
  rw [hc, hnew]
  intro h
  simp [List.replicate_succ] at h

theorem spec_replace_from_zeros (fuel m : Nat) (hm : m ≤ fuel) :
    spec_replace_from [[65]] [[66]] fuel (List.replicate m 0) = List.replicate m 0 := by
  induction m generalizing fuel with
  | zero => cases fuel <;> simp [spec_replace_from]
  | succ k ih =>
    obtain ⟨g, rfl⟩ : ∃ g, fuel = g + 1 := ⟨fuel - 1, by omega⟩
    have hno : spec_first_match (0 :: List.replicate k 0) [[65]] [[66]] = none := by
      simp [spec_first_match]
    rw [List.replicate_succ, spec_replace_from, hno]
    simp only
    rw [ih g (by omega)]

theorem spec_buff_replace_ex_letter (m : Nat) :
    spec_buff_replace_ex (65 :: List.replicate m 0) [[65]] [[66]] = 66 :: List.replicate m 0 := by
  have hyes : spec_first_match (65 :: List.replicate m 0) [[65]] [[66]] = some ([65], [66]) := by
    simp [spec_first_match]
  rw [spec_buff_replace_ex, List.length_cons, spec_replace_from, hyes]
  simp only [List.length_singleton, List.drop_succ_cons, List.drop_zero, List.length_replicate]
  rw [spec_replace_from_zeros m m (le_refl m)]
  rfl

theorem replace_file_wrapped (st : State MemFile) (n : Nat) (hs : s32 (n + 2) = 1)
    (hfile : st.file.content = List.replicate (n + 2) 65)
    (hf : st.s_finders = [[65]]) (hr : st.s_replaces = [[66]]) (hflag : st.s_force_utf8 = false) :
    ∃ st1, replace_file (example_lib ddfile_type.utf8_or_ansi) st = some st1 ∧
      st1.src_buff = 65 :: List.replicate (n + 1) 0 ∧
      st1.new_buff = 66 :: List.replicate (n + 1) 0 ∧
      st1.file.content = 66 :: List.replicate (n + 1) 65 ∧
      st1.file.content ≠ st1.new_buff ∧ st1.s_result = 0 := by
  have hlen : st.s_finders.length = st.s_replaces.length := by rw [hf, hr]; rfl
  have hty : (example_lib ddfile_type.utf8_or_ansi).get_file_type st.s_src_path st.file
      = ddfile_type.utf8_or_ansi := rfl
  have hres : resolve_type ddfile_type.utf8_or_ansi false = ddfile_type.ansi := rfl
  have hfb : [([65] : wstring)].map
      (spec_transcode (example_lib ddfile_type.utf8_or_ansi) ddfile_type.ansi) = [[65]] := rfl
  have hrb : [([66] : wstring)].map
      (spec_transcode (example_lib ddfile_type.utf8_or_ansi) ddfile_type.ansi) = [[66]] := rfl
  rw [replace_file_known _ _ (fun e => ddfile_type.noConfusion e) hlen, hty, hflag, hres, hf, hr,
    hfb, hrb]
  refine ⟨_, rfl, ?_⟩
  obtain ⟨h0, hsrc, hnew, hcontent⟩ := mem_write_back ddfile_type.utf8_or_ansi ascii_bytes
    ascii_bytes spec_buff_replace_ex (log st (Event.get_file_type st.s_src_path)) [[65]] [[66]]
  have hlog : (log st (Event.get_file_type st.s_src_path)).file.content
      = List.replicate (n + 2) 65 := hfile
  rw [hlog] at hsrc hcontent
  have e : n + 2 = (n + 1) + 1 := by omega
  have hsrc2 : (write_back (example_lib ddfile_type.utf8_or_ansi)
      (log st (Event.get_file_type st.s_src_path)) [[65]] [[66]]).src_buff
      = 65 :: List.replicate (n + 1) 0 := by
    rw [example_lib, hsrc]
    simp only [List.length_replicate, hs]
    rw [e]
    simp [List.replicate_succ]
  have hnew2 : (write_back (example_lib ddfile_type.utf8_or_ansi)
      (log st (Event.get_file_type st.s_src_path)) [[65]] [[66]]).new_buff
      = 66 :: List.replicate (n + 1) 0 := by
    rw [example_lib] at hsrc2 ⊢
    rw [hnew, hsrc2, spec_buff_replace_ex_letter]
  have hfile2 : (write_back (example_lib ddfile_type.utf8_or_ansi)
      (log st (Event.get_file_type st.s_src_path)) [[65]] [[66]]).file.content
      = 66 :: List.replicate (n + 1) 65 := by
    rw [example_lib] at hnew2 ⊢
    rw [hcontent, hnew2]
    simp only [List.length_cons, List.length_replicate, hs]
    rw [e]
    simp [List.replicate_succ]
  refine ⟨hsrc2, hnew2, hfile2, ?_, h0⟩
  rw [hfile2, hnew2]
  intro h
  simp [List.replicate_succ] at h

theorem run_wrapped (size m : Nat) (hsize : size = m + 1) (hm : 1 ≤ m) (hs : s32 size = 1) :
    ∃ st, run (example_lib ddfile_type.utf8_or_ansi)
        [L "dd.exe", L "a.txt", L "-p", L "A", L "B"] ⟨List.replicate size 65, 0⟩ = some st ∧
      st.src_buff = 65 :: List.replicate m 0 ∧
      st.new_buff = 66 :: List.replicate m 0 ∧
      st.file.content = 66 :: List.replicate m 65 ∧
      st.file.content ≠ st.new_buff ∧ st.s_result = 0 := by
  obtain ⟨n, rfl⟩ : ∃ n, m = n + 1 := ⟨m - 1, by omega⟩
  subst hsize
  have hstop : spec_stops_early ([L "dd.exe", L "a.txt", L "-p", L "A", L "B"].drop 2) = false := by
    decide
  rw [run_eq, if_neg (by decide), hstop, if_neg (by decide)]
  exact replace_file_wrapped _ n hs rfl rfl rfl rfl

/-- C6 fails as stated, over the abstract file, once a length does not fit a
signed 32-bit integer. First, the run `dd.exe a.txt -p A B` on a file of
`2 ^ 32 + 1` letters `A`: `read` and `write` are passed `(s32)(2 ^ 32 + 1) = 1`,
so one byte is read, `new_buff` is `B` followed by `2 ^ 32` zero bytes, and one
byte of it is written: the file ends as `B` followed by `2 ^ 32` letters `A`,
which is not `new_buff`. Second, for a replacer output `new_buff` of
`2 ^ 32 + 1` bytes `7` on an empty file: the file is resized to `2 ^ 32 + 1`
bytes and only its first byte is written. -/
theorem persistence_counterexample :
    (∃ st, run (example_lib ddfile_type.utf8_or_ansi)
        [L "dd.exe", L "a.txt", L "-p", L "A", L "B"]
        ⟨List.replicate (2 ^ 32 + 1) 65, 0⟩ = some st ∧
      st.src_buff = 65 :: List.replicate (2 ^ 32) 0 ∧
      st.new_buff = 66 :: List.replicate (2 ^ 32) 0 ∧
      st.file.content = 66 :: List.replicate (2 ^ 32) 65 ∧
      st.file.content ≠ st.new_buff ∧ st.s_result = 0) ∧
    (∃ st1, replace_file
        (mem_lib ddfile_type.ansi ascii_bytes ascii_bytes
          (fun _ _ _ => List.replicate (2 ^ 32 + 1) 7))
        (example_state false [] [] ⟨[], 0⟩) = some st1 ∧
      st1.new_buff = List.replicate (2 ^ 32 + 1) 7 ∧
      st1.file.content = 7 :: List.replicate (2 ^ 32) 0 ∧
      st1.file.content ≠ st1.new_buff) := by
  have hk := replace_file_known
    (mem_lib ddfile_type.ansi ascii_bytes ascii_bytes (fun _ _ _ => List.replicate (2 ^ 32 + 1) 7))
    (example_state false [] [] ⟨[], 0⟩) (fun h => ddfile_type.noConfusion h) rfl
  exact ⟨run_wrapped (2 ^ 32 + 1) (2 ^ 32) rfl (by norm_num) s32_wraps,
    _, hk, mem_write_back_wrapped ddfile_type.ansi ascii_bytes ascii_bytes _ _ _
      (2 ^ 32 + 1) (2 ^ 32) rfl (by norm_num) s32_wraps rfl⟩

/-! ## I/O failures after the file is open -/

/-- C9, the code at a failing input: `dd.exe a.txt -p world there` on a file
of content `hello world` whose `resize` and `write` fail. The run discards what
they return, prints the green success line and `ddmain` returns 0, while the
file still holds `hello world`. -/
theorem failed_write_exits_zero :
    ∃ st, run (readonly_lib ddfile_type.utf8_or_ansi)
        [L "dd.exe", L "a.txt", L "-p", L "world", L "there"] ⟨L "hello world", 0⟩ = some st ∧
      st.trace = [Event.get_file_type (L "a.txt"), Event.create_utf8_file (L "a.txt") true,
        Event.read 11 true, Event.buff_replace_ex (L "hello world") [L "world"] [L "there"],
        Event.resize 11 false, Event.seek 0 true, Event.write (L "hello there") 11 false,
        Event.log_green] ∧
      st.file.content = L "hello world" ∧ st.new_buff = L "hello there" ∧ st.s_result = 0 ∧
      ddmain (readonly_lib ddfile_type.utf8_or_ansi)
        [L "dd.exe", L "a.txt", L "-p", L "world", L "there"] ⟨L "hello world", 0⟩ = some 0 := by
  have hrun : run (readonly_lib ddfile_type.utf8_or_ansi)
      [L "dd.exe", L "a.txt", L "-p", L "world", L "there"] ⟨L "hello world", 0⟩ = some
        { s_src_path := L "a.txt", s_force_utf8 := false,
          s_finders := [L "world"], s_replaces := [L "there"], s_result := 0,
          trace := [Event.get_file_type (L "a.txt"), Event.create_utf8_file (L "a.txt") true,
            Event.read 11 true, Event.buff_replace_ex (L "hello world") [L "world"] [L "there"],
            Event.resize 11 false, Event.seek 0 true, Event.write (L "hello there") 11 false,
            Event.log_green],
          file := ⟨L "hello world", 0⟩,
          finder_buffs := [L "world"], replace_buffs := [L "there"],
          src_buff := L "hello world", new_buff := L "hello there" } := by decide
  exact ⟨_, hrun, rfl, rfl, rfl, rfl, by rw [ddmain, hrun]; rfl⟩

end NSP_DD
